import Mathlib

/-!
Verification of the celebrity-death-bot ingestion-to-verdict pipeline.

Each definition is a shallow embedding of the corresponding TypeScript
function from the repository (file and function named in its doc comment).
JavaScript strings are modelled by Lean `String` (with Mathlib's linear
order standing in for the code-unit order used by `<` on JS strings),
nullable values by `Option`, and the D1/KV stores by explicit state passed
through the functions.
-/

namespace CDB

/-! ## JavaScript string primitives

The embedding manipulates strings through their character lists so that every
definition evaluates by kernel reduction.  `jsTrim` models `String.trim`,
`splitChar` models `String.split` with a one-character separator, and the
`jsStartsWith`/`jsEndsWith` helpers model the corresponding prefix/suffix
tests. -/

def jsTrim (s : String) : String :=
  String.mk (((s.data.dropWhile Char.isWhitespace).reverse.dropWhile
    Char.isWhitespace).reverse)

def splitCharAux (sep : Char) : List Char → List Char → List String
  | [], acc => [String.mk acc.reverse]
  | c :: cs, acc =>
    if c = sep then String.mk acc.reverse :: splitCharAux sep cs []
    else splitCharAux sep cs (c :: acc)

/-- `s.split(sep)` for a one-character separator (the only form the sources
use). -/
def splitChar (sep : Char) (s : String) : List String :=
  splitCharAux sep s.data []

def jsStartsWith (s pre : String) : Bool := pre.data.isPrefixOf s.data

def jsEndsWith (s suf : String) : Bool := suf.data.isSuffixOf s.data

def jsToLower (s : String) : String := String.mk (s.data.map Char.toLower)

/-! ## Dedup cache: `src/services/kv-monthly.ts` -/

/-- `diffSorted` from `src/services/kv-monthly.ts`: linear merge-style set
difference returning items present in `scrapedSorted` but not in
`existingSorted`. -/
def diffSorted : List String → List String → List String
  | _, [] => []
  | [], b :: bs => b :: bs
  | a :: as, b :: bs =>
    if a = b then diffSorted as bs
    else if a < b then diffSorted as (b :: bs)
    else b :: diffSorted (a :: as) bs
  termination_by ex sc => ex.length + sc.length

/-- `mergeSortedUnique` from `src/services/kv-monthly.ts`: sorted union of two
sorted deduplicated lists. -/
def mergeSortedUnique : List String → List String → List String
  | as, [] => as
  | [], b :: bs => b :: bs
  | a :: as, b :: bs =>
    if a = b then a :: mergeSortedUnique as bs
    else if a < b then a :: mergeSortedUnique as (b :: bs)
    else b :: mergeSortedUnique (a :: as) bs
  termination_by xs ys => xs.length + ys.length

/-! ## Persistence batch insert: `insertBatchReturningNew` in
`src/services/db.ts` -/

/-- A value bound to a positional SQL parameter. -/
inductive SqlValue
  | s (v : String)
  | i (v : Int)
  | null
deriving DecidableEq, Repr

/-- Input shape of `insertBatchReturningNew` (`DeathEntry` in `src/types.ts`,
restricted to the fields the insert binds). -/
structure DeathEntry where
  name : String
  wiki_path : String
  link_type : String
  age : Option Int
  description : Option String
  cause : Option String
deriving DecidableEq, Repr

/-- The normalized bind tuple built at the top of `insertBatchReturningNew`:
`[r.name, String(r.wiki_path || '').trim(), r.link_type, isFinite(age) ? age :
null, r.description ?? null, r.cause ?? null]`.  `age : Option Int` already
models `number | null`, so the finiteness guard is the identity here. -/
structure InsertTuple where
  name : String
  wiki_path : String
  link_type : String
  age : Option Int
  description : Option String
  cause : Option String
deriving DecidableEq, Repr

def normTuple (r : DeathEntry) : InsertTuple :=
  { name := r.name
    wiki_path := jsTrim r.wiki_path
    link_type := r.link_type
    age := r.age
    description := r.description
    cause := r.cause }

/-- `const CHUNK = 16` in `insertBatchReturningNew`. -/
def CHUNK : Nat := 16

/-- The six values bound per row (the literal `'pending'` is not a bound
parameter). -/
def tupleBinds (t : InsertTuple) : List SqlValue :=
  [SqlValue.s t.name, SqlValue.s t.wiki_path, SqlValue.s t.link_type,
   (match t.age with | some n => SqlValue.i n | none => SqlValue.null),
   (match t.description with | some d => SqlValue.s d | none => SqlValue.null),
   (match t.cause with | some c => SqlValue.s c | none => SqlValue.null)]

/-- The `for (let i = 0; i < tuples.length; i += CHUNK)` slicing:
`tuples.slice(i, i + CHUNK)` for each chunk start. -/
def chunksOf (n : Nat) : List α → List (List α)
  | [] => []
  | x :: xs => (x :: xs.take (n - 1)) :: chunksOf n (xs.drop (n - 1))
  termination_by l => l.length
  decreasing_by simp [List.length_drop]; omega

/-- The bound-parameter lists of the prepared statements
(`chunk.flat()` after mapping each tuple to its six binds). -/
def insertStatements (rows : List DeathEntry) : List (List SqlValue) :=
  (chunksOf CHUNK (rows.map normTuple)).map fun chunk => (chunk.map tupleBinds).flatten

/-- The `deaths` table restricted to the columns the batched insert touches;
`wiki_path` carries the table's UNIQUE constraint. -/
abbrev DeathsTable := List InsertTuple

def tableKeys (db : DeathsTable) : List String := db.map (·.wiki_path)

/-- Effect of one `INSERT OR IGNORE ... VALUES (...),(...) RETURNING` statement
against the table: value tuples are inserted in order, a tuple whose
`wiki_path` already exists (including one inserted earlier in the same
statement) is silently ignored, and the statement returns exactly the rows it
inserted. -/
def insertOrIgnoreChunk (db : DeathsTable) : List InsertTuple → DeathsTable × List InsertTuple
  | [] => (db, [])
  | t :: ts =>
    if t.wiki_path ∈ tableKeys db then insertOrIgnoreChunk db ts
    else
      let rest := insertOrIgnoreChunk (db ++ [t]) ts
      (rest.1, t :: rest.2)

/-- `insertBatchReturningNew` from `src/services/db.ts`: normalize the rows,
chunk them 16 at a time, run the per-chunk `INSERT OR IGNORE ... RETURNING`
statements in one batch, and collect every returned (inserted) row. -/
def insertBatchReturningNew (db : DeathsTable) (rows : List DeathEntry) :
    DeathsTable × List InsertTuple :=
  (chunksOf CHUNK (rows.map normTuple)).foldl
    (fun acc chunk =>
      let res := insertOrIgnoreChunk acc.1 chunk
      (res.1, acc.2 ++ res.2))
    (db, [])

/-! ## Verdict state: rows of the `deaths` table and the reconciler's
verdict-writing operations (`src/services/db.ts`) -/

/-- A row of the `deaths` table, restricted to the columns the reconciler's
verdict writes touch.  `llm_result` is the verdict: `'pending'`, `'yes'`
(approved), `'no'` (rejected), `'error'` (errored), or `'skipped'`. -/
structure DeathRow where
  wiki_path : String
  llm_result : String
  cause : Option String
  description : Option String
  rejection_reason : Option String
deriving DecidableEq, Repr

abbrev Deaths := List DeathRow

/-- Row-level effect of `updateDeathLLM` (`src/services/db.ts`): on rows
matching `wiki_path`, set `cause`, coalesce in the non-empty trimmed
description, and set `llm_result = 'yes'` — with no guard on the current
verdict. -/
def updateDeathLLMRow (wiki_path : String) (cause : Option String)
    (description : Option String) (r : DeathRow) : DeathRow :=
  if r.wiki_path = wiki_path then
    let d := jsTrim (description.getD "")
    { r with
      cause := cause
      description := if d = "" then r.description else some d
      llm_result := "yes" }
  else r

/-- `updateDeathLLM` from `src/services/db.ts`:
`UPDATE deaths SET cause = ?1, description = COALESCE(?2, description),
llm_result = 'yes' WHERE wiki_path = ?3` (the `llm_date_time` timestamp column
is not modelled). -/
def updateDeathLLM (db : Deaths) (wiki_path : String) (cause : Option String)
    (description : Option String) : Deaths :=
  db.map (updateDeathLLMRow wiki_path cause description)

/-- `Array.from(new Set(paths))`: deduplication keeping first occurrences. -/
def jsSetDedup (l : List String) : List String :=
  l.foldl (fun acc s => if s ∈ acc then acc else acc ++ [s]) []

/-- Row-level effect of one `setLLMNoFor` statement:
`UPDATE deaths SET llm_result = 'no' WHERE wiki_path = ?1 AND
llm_result = 'pending'`. -/
def setLLMNoForRow (path : String) (r : DeathRow) : DeathRow :=
  if r.wiki_path = path ∧ r.llm_result = "pending" then
    { r with llm_result := "no" }
  else r

/-- `setLLMNoFor` from `src/services/db.ts`: trim the paths, drop empties,
dedupe, and run one guarded UPDATE per path (the 40-statement batching has no
semantic effect on the table). -/
def setLLMNoFor (db : Deaths) (wikiPaths : List String) : Deaths :=
  let unique := jsSetDedup ((wikiPaths.map jsTrim).filter (· ≠ ""))
  unique.foldl (fun acc path => acc.map (setLLMNoForRow path)) db

/-- Row-level effect of the errored marking on one candidate path. -/
def markDeathsAsErrorRow (path : String) (r : DeathRow) : DeathRow :=
  if r.wiki_path = path then { r with llm_result := "error" } else r

/-- Modelled from the spec: `markDeathsAsError` is imported by the reconciler
(`src/routes/replicate-callback.ts`, `src/routes/openai-webhook.ts`,
`services/llm-output.ts`) from `services/db.ts`, but its definition is missing
from the source snapshot.  Per the spec's fail-safe — "mark every
`candidate_id` as `errored` (an explicit terminal state distinct from
`pending`)" — it sets `llm_result = 'error'` on every row whose `wiki_path`
is among the given candidates. -/
def markDeathsAsError (db : Deaths) (wikiPaths : List String) : Deaths :=
  wikiPaths.foldl (fun acc path => acc.map (markDeathsAsErrorRow path)) db

/-- A rejected item handed to the rejected-marking path: canonical id plus
optional (already truncated) reason. -/
structure Rejection where
  wiki_path : String
  reason : Option String
deriving DecidableEq, Repr

/-- Row-level effect of the rejected marking for one rejection. -/
def markDeathsAsNoRow (rej : Rejection) (r : DeathRow) : DeathRow :=
  if r.wiki_path = rej.wiki_path ∧ r.llm_result = "pending" then
    { r with llm_result := "no", rejection_reason := rej.reason }
  else r

/-- Modelled from the spec: `markDeathsAsNo` is imported by the reconciler from
`services/db.ts`, but its definition is missing from the source snapshot.  Per
the spec — "apply `rejected` state with an optional reason (truncated to a
bounded length), but only if the record's current state is still `pending`" —
it sets `llm_result = 'no'` and stores the reason on matching rows that are
still pending. -/
def markDeathsAsNo (db : Deaths) (rejections : List Rejection) : Deaths :=
  rejections.foldl (fun acc rej => acc.map (markDeathsAsNoRow rej)) db

/-- The verdict-writing operations available to reconciler code paths. -/
inductive ReconcilerOp
  | approve (wiki_path : String) (cause : Option String) (description : Option String)
  | rejectPaths (wikiPaths : List String)
  | reject (rejections : List Rejection)
  | markError (wikiPaths : List String)

def applyOp (db : Deaths) : ReconcilerOp → Deaths
  | .approve w c d => updateDeathLLM db w c d
  | .rejectPaths ws => setLLMNoFor db ws
  | .reject rs => markDeathsAsNo db rs
  | .markError ws => markDeathsAsError db ws

def applyOps (db : Deaths) (ops : List ReconcilerOp) : Deaths :=
  ops.foldl applyOp db

/-- The operations of the rejected-marking paths. -/
def isRejectOp : ReconcilerOp → Bool
  | .rejectPaths _ => true
  | .reject _ => true
  | _ => false

/-- The row-level function each operation applies pointwise to the table. -/
def applyOpRow (op : ReconcilerOp) (r : DeathRow) : DeathRow :=
  match op with
  | .approve w c d => updateDeathLLMRow w c d r
  | .rejectPaths ws =>
    (jsSetDedup ((ws.map jsTrim).filter (· ≠ ""))).foldl
      (fun row p => setLLMNoForRow p row) r
  | .reject rs => rs.foldl (fun row rej => markDeathsAsNoRow rej row) r
  | .markError ws => ws.foldl (fun row p => markDeathsAsErrorRow p row) r

/-! ## Rate limiter: `src/services/rate-limit.ts` -/

structure RateWindow where
  windowSeconds : Nat
  limit : Nat
deriving DecidableEq, Repr

structure RLExceeded where
  windowSeconds : Nat
  limit : Nat
  count : Nat
  resetSeconds : Nat
deriving DecidableEq, Repr

structure RateLimitResult where
  allowed : Bool
  exceeded : Option RLExceeded
deriving DecidableEq, Repr

/-- The `rate_limits` table: rows `(key, window_start, count)`. -/
abbrev RLStore := List (String × Nat × Nat)

def rlLookup (db : RLStore) (key : String) : Option (Nat × Nat) :=
  (db.find? fun e => e.1 == key).map (·.2)

/-- The upsert in `incrementAndGet`: `INSERT ... ON CONFLICT(key) DO UPDATE SET
count = CASE WHEN same window THEN count + 1 ELSE 1 END, window_start = ...`. -/
def rlUpsert : RLStore → String → Nat → RLStore
  | [], key, ws => [(key, ws, 1)]
  | e :: rest, key, ws =>
    if e.1 = key then
      (if ws = e.2.1 then (key, e.2.1, e.2.2 + 1) else (key, ws, 1)) :: rest
    else e :: rlUpsert rest key ws

/-- The stored `(window_start, count)` after one upsert with window start
`ws`, given the previously stored value. -/
def rlNext : Option (Nat × Nat) → Nat → Nat × Nat
  | some (s, c), ws => if ws = s then (s, c + 1) else (ws, 1)
  | none, ws => (ws, 1)

/-- `incrementAndGet` from `src/services/rate-limit.ts` (with the clock passed
explicitly): window start `floor(now / windowSeconds) * windowSeconds`, upsert,
then read back `(count, window_start)`. -/
def incrementAndGet (db : RLStore) (key : String) (windowSeconds now : Nat) :
    RLStore × Nat × Nat :=
  let windowStart := now / windowSeconds * windowSeconds
  let db' := rlUpsert db key windowStart
  match rlLookup db' key with
  | some (ws, c) => (db', c, ws)
  | none => (db', 1, windowStart)

/-- `makeKey` from `src/services/rate-limit.ts`. -/
def makeKey (scope identifier : String) (windowSeconds : Nat) : String :=
  "rl:" ++ scope ++ ":" ++ identifier ++ ":" ++ toString windowSeconds

/-- The `for (const w of windows)` loop of `checkRateLimits`, carrying the
`firstExceeded` accumulator; note there is no early exit, so every window's
counter is incremented. -/
def checkRateLimitsGo (scope identifier : String) (now : Nat) :
    RLStore → List RateWindow → Option RLExceeded → RLStore × RateLimitResult
  | db, [], firstExceeded =>
    (db, match firstExceeded with
         | some e => { allowed := false, exceeded := some e }
         | none => { allowed := true, exceeded := none })
  | db, w :: ws, firstExceeded =>
    let res := incrementAndGet db (makeKey scope identifier w.windowSeconds)
      w.windowSeconds now
    let fe :=
      if w.limit < res.2.1 then
        match firstExceeded with
        | none => some { windowSeconds := w.windowSeconds, limit := w.limit,
                         count := res.2.1,
                         resetSeconds := res.2.2 + w.windowSeconds - now }
        | some e => some e
      else firstExceeded
    checkRateLimitsGo scope identifier now res.1 ws fe

/-- `checkRateLimits` from `src/services/rate-limit.ts`.  `resetSeconds` is
`max(0, windowStart + windowSeconds − now)`, which truncated `Nat`
subtraction gives directly. -/
def checkRateLimits (db : RLStore) (scope identifier : String)
    (windows : List RateWindow) (now : Nat) : RLStore × RateLimitResult :=
  checkRateLimitsGo scope identifier now db windows none

/-- One step of the specification-side trace of `checkRateLimits`: the window
together with its post-increment count and window start. -/
structure RLStep where
  window : RateWindow
  count : Nat
  windowStart : Nat
deriving Repr

def rlTrace (scope identifier : String) (now : Nat) :
    RLStore → List RateWindow → List RLStep
  | _, [] => []
  | db, w :: ws =>
    let res := incrementAndGet db (makeKey scope identifier w.windowSeconds)
      w.windowSeconds now
    ⟨w, res.2.1, res.2.2⟩ :: rlTrace scope identifier now res.1 ws

/-! ## Bearer tokens and the manual-override bypass -/

/-- The token extraction shared by `manualRun` and the webhook manual-override
checks: `const m = /^Bearer\s+(.+)$/i.exec(t); m ? m[1].trim() : t` for an
already trimmed `t`.  After a case-insensitive `Bearer` prefix the regex needs
at least one whitespace character and a remainder free of line terminators
(`.` does not match them); since `t` is trimmed the captured group is the
remainder after the whitespace run. -/
def bearerToken (t : String) : String :=
  if jsStartsWith (jsToLower t) "bearer" then
    let r := t.data.drop 6
    let rest := r.dropWhile Char.isWhitespace
    let headWs := match r with
      | [] => false
      | c :: _ => c.isWhitespace
    if headWs && !rest.isEmpty && rest.all (fun c => !(c == '\n' || c == '\r')) then
      jsTrim (String.mk rest)
    else t
  else t

/-- The manual-override check at the top of the webhook routes
(`src/routes/replicate-callback.ts` lines 81–88 and
`src/routes/openai-webhook.ts` lines 30–37): the Authorization header's
(optionally `Bearer`-prefixed) token must equal `MANUAL_RUN_SECRET` by exact
string comparison; an absent/empty header or unset secret disables the
override (`""` models JS falsiness for both). -/
def manualOverride (authHeader manualRunSecret : String) : Bool :=
  let trimmed := jsTrim authHeader
  if trimmed = "" ∨ manualRunSecret = "" then false
  else bearerToken trimmed == manualRunSecret

/-! ## Manual run entry point: `src/routes/run.ts` -/

inductive RunResponse
  | tooMany (retryAfter : Nat)
  | unauthorized
  | proceed
deriving DecidableEq, Repr

/-- Lines 6–30 of `src/routes/run.ts` (`manualRun`), up to the dispatch into
the job helpers: the per-IP rate-limit check runs first (IP from
`CF-Connecting-IP`, `'unknown'` when absent or empty), a `429` carries
`Retry-After: resetSeconds || 60`, and only then is the bearer token compared
with `MANUAL_RUN_SECRET` (`401` on mismatch).  `proceed` stands for falling
through into the job body. -/
def manualRun (db : RLStore) (ipHeader : Option String)
    (runWindows : List RateWindow) (authHeader manualRunSecret : String)
    (now : Nat) : RLStore × RunResponse :=
  let ip := if (ipHeader.getD "") = "" then "unknown" else ipHeader.getD ""
  let rl := checkRateLimits db "run" ip runWindows now
  if rl.2.allowed = false then
    (rl.1, .tooMany (match rl.2.exceeded with
      | some e => if e.resetSeconds = 0 then 60 else e.resetSeconds
      | none => 60))
  else
    let auth := jsTrim authHeader
    let token := if auth = "" then "" else bearerToken auth
    if token = "" ∨ token ≠ manualRunSecret then (rl.1, .unauthorized)
    else (rl.1, .proceed)

/-! ## Webhook verification: `src/utils/replicate-webhook.ts`

The Web-Crypto primitive (base64-decode the unwrapped secret to raw key
bytes, HMAC-SHA256 the message, base64-encode the tag) is modelled by an
abstract function `hmacB64 : unwrapped-secret ↦ message ↦ signature`; all
string handling around it is embedded from the source. -/

def DEFAULT_MAX_AGE_SECONDS : Nat := 5 * 60

/-- `Number.parseInt(s, 10)` combined with the `Number.isFinite` guard: skip
leading whitespace, read an optional sign and at least one decimal digit,
and ignore everything from the first non-digit on; `none` when no digit is
found. -/
def jsParseInt10 (s : String) : Option Int :=
  let l := s.data.dropWhile Char.isWhitespace
  let p :=
    match l with
    | '-' :: rest => (true, rest)
    | '+' :: rest => (false, rest)
    | _ => (false, l)
  let digits := p.2.takeWhile Char.isDigit
  if digits = [] then none
  else
    let n : Nat := digits.foldl (fun acc c => acc * 10 + (c.toNat - '0'.toNat)) 0
    some (if p.1 then -(n : Int) else (n : Int))

/-- `isTimestampFresh` from `src/utils/replicate-webhook.ts` (clock passed
explicitly): parse the header as a base-10 integer and require
`|now − ts| ≤ maxAgeSeconds`; an empty or unparsable header is never fresh. -/
def isTimestampFresh (headerTs : String) (now : Int) (maxAgeSeconds : Nat) : Bool :=
  match jsParseInt10 headerTs with
  | none => false
  | some ts => (now - ts).natAbs ≤ maxAgeSeconds

/-- `parseWebhookSignatures` from `src/utils/replicate-webhook.ts`: split the
header on spaces, trim, drop empties, strip a comma-separated version prefix
(`t.split(',')[1]`), and drop empties again; a missing or empty header yields
no candidates. -/
def parseWebhookSignatures (header : Option String) : List String :=
  match header with
  | none => []
  | some h =>
    ((((splitChar ' ' h).map jsTrim).filter (· ≠ "")).map fun t =>
      if t.data.contains ',' then (splitChar ',' t).getD 1 "" else t).filter
      (· ≠ "")

/-- The secret unwrapping in `computeReplicateSignature`: a `whsec_<base64>`
secret contributes its `<base64>` part as the key material
(`parts.length > 1 ? parts[1] : parts[0]`). -/
def unwrapSecretB64 (secret : String) : String :=
  let parts := splitChar '_' secret
  if 1 < parts.length then parts.getD 1 "" else parts.getD 0 ""

/-- `computeReplicateSignature` from `src/utils/replicate-webhook.ts` over the
abstract HMAC primitive. -/
def computeReplicateSignature (hmacB64 : String → String → String)
    (secret signedContent : String) : String :=
  hmacB64 (unwrapSecretB64 secret) signedContent

/-- `verifyReplicateSignatureParts` from `src/utils/replicate-webhook.ts`:
missing/empty headers or a stale timestamp fail; otherwise sign
`{id}.{timestamp}.{rawBody}` and accept iff some parsed candidate's UTF-8
bytes equal the computed signature's bytes — `TextEncoder` being injective,
that is string equality. -/
def verifyReplicateSignatureParts (hmacB64 : String → String → String)
    (secret : String) (webhookId webhookTimestamp webhookSignatureHeader : Option String)
    (rawBody : String) (now : Int) (maxAgeSeconds : Nat) : Bool :=
  if (webhookId.getD "") = "" ∨ (webhookTimestamp.getD "") = "" ∨
      (webhookSignatureHeader.getD "") = "" then false
  else if ¬ isTimestampFresh (webhookTimestamp.getD "") now maxAgeSeconds = true then
    false
  else
    let signedContent :=
      (webhookId.getD "") ++ "." ++ (webhookTimestamp.getD "") ++ "." ++ rawBody
    let computed := computeReplicateSignature hmacB64 secret signedContent
    let expected := parseWebhookSignatures webhookSignatureHeader
    if expected.isEmpty then false
    else expected.any fun exp => exp == computed

inductive VerifyResult
  | ok
  | err (code : Nat) (error : String)
deriving DecidableEq, Repr

/-- `verifyReplicateWebhook` from `src/utils/replicate-webhook.ts`, with the
three `webhook-*` headers, raw body and clock passed explicitly (an absent
header is `none`; the route always passes the raw body text). -/
def verifyReplicateWebhook (hmacB64 : String → String → String) (secret : String)
    (id ts sig : Option String) (body : String) (now : Int) (maxAgeSeconds : Nat) :
    VerifyResult :=
  if (id.getD "") = "" ∨ (ts.getD "") = "" ∨ (sig.getD "") = "" then
    .err 400 "Missing required webhook headers"
  else if ¬ isTimestampFresh (ts.getD "") now maxAgeSeconds = true then
    .err 400 "Webhook timestamp is too old"
  else if verifyReplicateSignatureParts hmacB64 secret id ts sig body now
      maxAgeSeconds then .ok
  else .err 403 "Invalid webhook signature"

/-! ## Webhook route gates: `src/routes/replicate-callback.ts` lines 72–94 and
`src/routes/openai-webhook.ts` lines 22–42 -/

/-- The verification gate of `replicateCallback` ahead of JSON parsing:
`none` when the request proceeds to body parsing and reconciliation,
`some (code, error)` when it is rejected.  Secrets are strings with `""`
modelling an unset binding (JS falsiness). -/
def replicateCallbackGate (hmacB64 : String → String → String)
    (authHeader manualRunSecret replicateWebhookSecret : String)
    (id ts sig : Option String) (bodyText : String) (now : Int) :
    Option (Nat × String) :=
  if replicateWebhookSecret ≠ "" ∧
      ¬ manualOverride authHeader manualRunSecret = true then
    match verifyReplicateWebhook hmacB64 replicateWebhookSecret id ts sig bodyText
        now DEFAULT_MAX_AGE_SECONDS with
    | .ok => none
    | .err code e => some (code, e)
  else none

/-- The verification gate of `openaiWebhook`, same shape; `verify` stands for
`verifyOpenAIWebhook` applied to this request (its internals mirror the
replicate verifier in `src/utils/openai-webhook.ts`). -/
def openaiWebhookGate (verify : Unit → VerifyResult)
    (authHeader manualRunSecret openaiWebhookSecret : String) :
    Option (Nat × String) :=
  if openaiWebhookSecret ≠ "" ∧
      ¬ manualOverride authHeader manualRunSecret = true then
    match verify () with
    | .ok => none
    | .err code e => some (code, e)
  else none

/-! ## LLM output reconciliation: `applyLlmOutput` and its helpers
(`services/llm-output.ts`, shipped in the snapshot as an unnamed source file)

JSON values are embedded as `JsonVal`; the JS builtins the helpers call —
`JSON.parse`, `decodeURIComponent` (which can throw), `encodeURIComponent`,
and the `URL` constructor (`pathname + search`, throwing on invalid input) —
are abstracted as the `JsBuiltins` record.  Everything else is embedded from
the source. -/

inductive JsonVal
  | str (s : String)
  | num (n : Int)
  | bool (b : Bool)
  | null
  | arr (items : List JsonVal)
  | obj (fields : List (String × JsonVal))

structure JsBuiltins where
  jsonParse : String → Option JsonVal
  decodeURIComponent : String → Option String
  encodeURIComponent : String → String
  urlPathnameSearch : String → Option String

/-- Field access `fields[key]`; `none` models an absent key (undefined). -/
def jsGet (fields : List (String × JsonVal)) (key : String) : Option JsonVal :=
  (fields.find? fun e => e.1 == key).map (·.2)

/-- The `'key' in obj` test. -/
def jsHas (fields : List (String × JsonVal)) (key : String) : Bool :=
  (fields.find? fun e => e.1 == key).isSome

/-- A `??`-coalescing chain of field reads: the first key whose value is
present and not `null`. -/
def jsGetCoalesce (fields : List (String × JsonVal)) : List String → Option JsonVal
  | [] => none
  | k :: ks =>
    match jsGet fields k with
    | some JsonVal.null => jsGetCoalesce fields ks
    | some v => some v
    | none => jsGetCoalesce fields ks

mutual
/-- JS `String(v)` on a JSON value. -/
def jsToString : JsonVal → String
  | .str s => s
  | .num n => toString n
  | .bool b => if b then "true" else "false"
  | .null => "null"
  | .arr items => String.intercalate "," (jsToStringArrayItems items)
  | .obj _ => "[object Object]"

def jsToStringArrayItems : List JsonVal → List String
  | [] => []
  | JsonVal.null :: vs => "" :: jsToStringArrayItems vs
  | v :: vs => jsToString v :: jsToStringArrayItems vs
end

/-- `toStr` from `src/utils/strings.ts`: `''` for null/undefined, otherwise
`String(v).trim()` with the literal strings `'null'`/`'undefined'` collapsed
to `''`. -/
def toStr (v : Option JsonVal) : String :=
  match v with
  | none => ""
  | some JsonVal.null => ""
  | some jv =>
    let s := jsTrim (jsToString jv)
    if s = "null" ∨ s = "undefined" then "" else s

/-- `replace(/\s+/g, rep)`: each whitespace run becomes one `rep`. -/
def replaceWsRunsAux (rep : Char) : Bool → List Char → List Char
  | _, [] => []
  | prevWs, c :: cs =>
    if c.isWhitespace then
      if prevWs then replaceWsRunsAux rep true cs
      else rep :: replaceWsRunsAux rep true cs
    else c :: replaceWsRunsAux rep false cs

def replaceWsRuns (rep : Char) (s : String) : String :=
  String.mk (replaceWsRunsAux rep false s.data)

/-- `replace(/_/g, ' ')`. -/
def underscoresToSpaces (s : String) : String :=
  String.mk (s.data.map fun c => if c = '_' then ' ' else c)

/-- `const MAX_REASON_CHARS = 200` in the reconciler. -/
def MAX_REASON_CHARS : Nat := 200

/-- `sanitizeReason` from the reconciler: stringify, collapse whitespace,
trim, and truncate to `MAX_REASON_CHARS`; empty results become `null`. -/
def sanitizeReason (value : Option JsonVal) : Option String :=
  let raw := toStr value
  if raw = "" then none
  else
    let trimmed := jsTrim (replaceWsRuns ' ' raw)
    if trimmed = "" then none
    else some (String.mk (trimmed.data.take MAX_REASON_CHARS))

/-- A left-to-right scan of the regex `new RegExp(pat + "([^" + stop + "]+)")`:
at each position where `pat` begins, the following maximal run outside `stop`
is the capture; an empty capture makes the scan continue at the next
position. -/
def regexCapture (pat : List Char) (stop : List Char) : List Char → Option String
  | [] => none
  | c :: cs =>
    if pat.isPrefixOf (c :: cs) then
      let cap := ((c :: cs).drop pat.length).takeWhile fun ch => !stop.contains ch
      if cap ≠ [] then some (String.mk cap) else regexCapture pat stop cs
    else regexCapture pat stop cs

/-- The `[?&]title=([^&#]+)` capture. -/
def titleCapture : List Char → Option String
  | [] => none
  | c :: cs =>
    if (c = '?' ∨ c = '&') ∧ "title=".data.isPrefixOf cs then
      let cap := (cs.drop 6).takeWhile fun ch => !(ch == '&' || ch == '#')
      if cap ≠ [] then some (String.mk cap) else titleCapture cs
    else titleCapture cs

/-- `replace(/^\/+wiki\//, '')`. -/
def stripLeadingWiki (s : String) : String :=
  let slashes := s.data.takeWhile (· == '/')
  let rest := s.data.dropWhile (· == '/')
  if slashes ≠ [] ∧ "wiki/".data.isPrefixOf rest then String.mk (rest.drop 5)
  else s

/-- `normalizeWikiPath` from the reconciler. -/
def normalizeWikiPath (B : JsBuiltins) (value : Option JsonVal) : String :=
  let raw := toStr value
  if raw = "" then ""
  else
    let candidate := jsTrim raw
    if candidate = "" then ""
    else
      let candidate :=
        if jsStartsWith (jsToLower candidate) "http://" ∨
            jsStartsWith (jsToLower candidate) "https://" then
          match B.urlPathnameSearch candidate with
          | some ps => ps
          | none => candidate
        else candidate
      match regexCapture "/wiki/".data ['?', '#'] candidate.data with
      | some cap => cap
      | none =>
        match titleCapture candidate.data with
        | some cap => cap
        | none => jsTrim (stripLeadingWiki candidate)

/-- The candidate-resolution map: normalized variant ↦ canonical id
(insertion-ordered, first mapping wins, as with JS `Map.has`/`Map.set`). -/
abbrev WikiMap := List (String × String)

def wmGet (m : WikiMap) (k : String) : Option String :=
  (m.find? fun e => e.1 == k).map (·.2)

/-- `addWikiPathMapping` from the reconciler. -/
def addWikiPathMapping (m : WikiMap) (key value : String) : WikiMap :=
  let trimmed := jsTrim key
  if trimmed = "" ∨ (wmGet m trimmed).isSome then m
  else m ++ [(trimmed, value)]

/-- `buildWikiPathMap` from the reconciler: for every candidate path, map the
normalized base and its spacing/underscore/percent-encoding variants back to
the base; a throwing `decodeURIComponent` skips the decoded variants. -/
def buildWikiPathMap (B : JsBuiltins) (paths : List String) : WikiMap :=
  paths.foldl (fun m raw =>
    let base := normalizeWikiPath B (some (JsonVal.str raw))
    if base = "" then m
    else
      let m := addWikiPathMapping m base base
      let m := addWikiPathMapping m (replaceWsRuns '_' base) base
      let m := addWikiPathMapping m (underscoresToSpaces base) base
      match B.decodeURIComponent base with
      | none => m
      | some decoded =>
        let m := addWikiPathMapping m decoded base
        let m := addWikiPathMapping m (replaceWsRuns '_' decoded) base
        let m := addWikiPathMapping m (underscoresToSpaces decoded) base
        addWikiPathMapping m (B.encodeURIComponent (replaceWsRuns '_' decoded))
          base) []

/-- `resolveWikiPath` from the reconciler: normalize, then look the result and
its variants up in the candidate map, falling back to the normalized form. -/
def resolveWikiPath (B : JsBuiltins) (value : Option JsonVal)
    (map : Option WikiMap) : String :=
  let normalized := normalizeWikiPath B value
  if normalized = "" then ""
  else
    match map with
    | none => normalized
    | some m =>
      if m.length = 0 then normalized
      else
        match wmGet m normalized with
        | some hit => hit
        | none =>
          match wmGet m (underscoresToSpaces normalized) with
          | some hit => hit
          | none =>
            match wmGet m (replaceWsRuns '_' normalized) with
            | some hit => hit
            | none =>
              match B.decodeURIComponent normalized with
              | none => normalized
              | some decoded =>
                match wmGet m decoded with
                | some hit => hit
                | none =>
                  let du := replaceWsRuns '_' decoded
                  match wmGet m du with
                  | some hit => hit
                  | none =>
                    match wmGet m (B.encodeURIComponent du) with
                    | some hit => hit
                    | none => normalized

/-- `readWikiPath` from the reconciler: the `wiki_path ?? wikiPath ?? wiki_id
?? wikiId ?? wiki` chain resolved against the candidate map. -/
def readWikiPath (B : JsBuiltins) (item : List (String × JsonVal))
    (map : Option WikiMap) : String :=
  resolveWikiPath B
    (jsGetCoalesce item ["wiki_path", "wikiPath", "wiki_id", "wikiId", "wiki"])
    map

/-- `normalizeRejected` from the reconciler: strings become reason-less
rejections, objects contribute their resolved id and sanitized reason, and
anything unresolvable or of another shape is skipped. -/
def normalizeRejected (B : JsBuiltins) (raw : Option JsonVal)
    (candidateMap : Option WikiMap) : List Rejection :=
  match raw with
  | some (JsonVal.arr items) =>
    items.foldl (fun out item =>
      match item with
      | JsonVal.str s =>
        let wiki_path := resolveWikiPath B (some (JsonVal.str s)) candidateMap
        if wiki_path ≠ "" then out ++ [⟨wiki_path, none⟩] else out
      | JsonVal.obj f =>
        let wiki_path := readWikiPath B f candidateMap
        if wiki_path = "" then out
        else out ++ [⟨wiki_path, sanitizeReason (jsGet f "reason")⟩]
      | _ => out) []
  | some (JsonVal.obj f) =>
    let wiki_path := readWikiPath B f candidateMap
    if wiki_path ≠ "" then [⟨wiki_path, sanitizeReason (jsGet f "reason")⟩]
    else []
  | _ => []

/-- `normalizeToArray` from `src/utils/json.ts`: an array keeps its object
elements, a non-empty object becomes a singleton, everything else is empty. -/
def normalizeToArray (parsed : Option JsonVal) : List (List (String × JsonVal)) :=
  match parsed with
  | some (JsonVal.arr items) =>
    items.foldl (fun acc v =>
      match v with
      | JsonVal.obj f => acc ++ [f]
      | _ => acc) []
  | some (JsonVal.obj f) => if f.length ≠ 0 then [f] else []
  | _ => []

/-- `stripCodeFences` from `src/utils/json.ts`: the
`/^```(?:json)?\s*([\s\S]*?)\s*```$/i` match — an opening fence (optionally
`json`-tagged, case-insensitively), then the whitespace-trimmed body, then a
distinct closing fence ending the string. -/
def stripCodeFences (s : String) : String :=
  let l := s.data
  if "```".data.isPrefixOf l then
    let r := l.drop 3
    let body := if "json".data.isPrefixOf (r.map Char.toLower) then r.drop 4 else r
    if 3 ≤ body.length ∧ "```".data.isSuffixOf body then
      jsTrim (String.mk (body.take (body.length - 3)))
    else s
  else s

/-- `extractAndParseJSON` from `src/utils/json.ts` over the abstract
`JSON.parse`: strip fences, trim, try a direct parse, then the outermost
`{...}` slice, then the outermost `[...]` slice. -/
def extractAndParseJSON (jsonParse : String → Option JsonVal) (s : String) :
    Option JsonVal :=
  let trimmed := jsTrim (stripCodeFences s)
  match jsonParse trimmed with
  | some v => some v
  | none =>
    let l := trimmed.data
    let tryObj :=
      match l.indexOf? '{', l.reverse.indexOf? '}' with
      | some i, some rj =>
        let j := l.length - 1 - rj
        if i < j then jsonParse (String.mk ((l.drop i).take (j - i + 1)))
        else none
      | _, _ => none
    match tryObj with
    | some v => some v
    | none =>
      match l.indexOf? '[', l.reverse.indexOf? ']' with
      | some i, some rj =>
        let j := l.length - 1 - rj
        if i < j then jsonParse (String.mk ((l.drop i).take (j - i + 1)))
        else none
      | _, _ => none

def selItemName (it : List (String × JsonVal)) : String := toStr (jsGet it "name")

def selItemDesc (it : List (String × JsonVal)) : String :=
  toStr (jsGet it "description")

def selItemCause (it : List (String × JsonVal)) : String :=
  toStr (jsGetCoalesce it
    ["cause of death", "cause_of_death", "causeOfDeath", "cause"])

/-- One iteration of the `for (const it of selectedItems)` loop in
`applyLlmOutput`: skip unnamed items, notify (Telegram, and X when
configured — external effects counted by the second component), and approve
the resolved record.  `getLinkTypeMap` feeds only the outbound messages and
does not touch the table. -/
def selLoopStep (B : JsBuiltins) (candidateMap : Option WikiMap)
    (acc : Deaths × Nat) (it : List (String × JsonVal)) : Deaths × Nat :=
  if selItemName it = "" then acc
  else
    let wiki_path := readWikiPath B it candidateMap
    if wiki_path ≠ "" then
      (updateDeathLLM acc.1 wiki_path (some (selItemCause it))
        (some (selItemDesc it)), acc.2 + 1)
    else (acc.1, acc.2 + 1)

/-- The row-level effect of one selected item. -/
def selRowStep (B : JsBuiltins) (candidateMap : Option WikiMap)
    (it : List (String × JsonVal)) (r : DeathRow) : DeathRow :=
  if selItemName it = "" then r
  else
    let wiki_path := readWikiPath B it candidateMap
    if wiki_path ≠ "" then
      updateDeathLLMRow wiki_path (some (selItemCause it)) (some (selItemDesc it)) r
    else r

/-- The result record of `applyLlmOutput`: the table plus the
`{notified, rejected, errored}` summary the route returns. -/
structure ApplyResult where
  db : Deaths
  notified : Nat
  rejected : Nat
  errored : Nat

/-- `applyLlmOutput` from the reconciler (`services/llm-output.ts`). -/
def applyLlmOutput (B : JsBuiltins) (db : Deaths) (outputText : String)
    (candidatePaths : List String) : ApplyResult :=
  let candidates := (candidatePaths.map jsTrim).filter (· ≠ "")
  let candidateMap :=
    if candidates.length ≠ 0 then some (buildWikiPathMap B candidates) else none
  let joined := jsTrim outputText
  if joined = "" then
    { db := if candidates.length ≠ 0 then markDeathsAsError db candidates else db
      notified := 0, rejected := 0, errored := candidates.length }
  else
    match extractAndParseJSON B.jsonParse joined with
    | none =>
      { db := if candidates.length ≠ 0 then markDeathsAsError db candidates else db
        notified := 0, rejected := 0, errored := candidates.length }
    | some parsed =>
      let si_rj :=
        match parsed with
        | JsonVal.arr _ => (normalizeToArray (some parsed), ([] : List Rejection))
        | JsonVal.obj f =>
          if jsHas f "selected" ∨ jsHas f "rejected" then
            (normalizeToArray (jsGet f "selected"),
             normalizeRejected B (jsGet f "rejected") candidateMap)
          else (normalizeToArray (some parsed), [])
        | _ => ([], [])
      let selectedItems := si_rj.1
      let rejectedItems := si_rj.2
      let dbn := selectedItems.foldl (selLoopStep B candidateMap) (db, 0)
      let db2 :=
        if rejectedItems.length ≠ 0 then
          let selectedSet :=
            (selectedItems.map fun it => readWikiPath B it candidateMap).filter
              (· ≠ "")
          markDeathsAsNo dbn.1
            (rejectedItems.filter fun item => !selectedSet.contains item.wiki_path)
        else dbn.1
      { db := db2, notified := dbn.2, rejected := rejectedItems.length
        errored := 0 }

/-- Concrete builtins for the witnesses and counterexamples; they agree with
the real JS builtins on every input they are exercised on there (no
percent-escapes, no absolute URLs, and `jsonParse` answering only on the
exact payload text with its real JSON value). -/
def testBuiltins (parse : String → Option JsonVal) : JsBuiltins :=
  { jsonParse := parse
    decodeURIComponent := fun s => some s
    encodeURIComponent := fun s => s
    urlPathnameSearch := fun _ => none }

/-! ## Theorems -/

theorem diffSorted_nil_left (bs : List String) : diffSorted [] bs = bs := by
  cases bs <;> simp [diffSorted]

theorem mergeSortedUnique_nil_right (as : List String) :
    mergeSortedUnique as [] = as := by
  cases as <;> simp [mergeSortedUnique]

theorem mergeSortedUnique_nil_left (bs : List String) :
    mergeSortedUnique [] bs = bs := by
  cases bs <;> simp [mergeSortedUnique]

theorem diffSorted_cons_cons (a b : String) (as bs : List String) :
    diffSorted (a :: as) (b :: bs) =
      if a = b then diffSorted as bs
      else if a < b then diffSorted as (b :: bs)
      else b :: diffSorted (a :: as) bs := by
  simp [diffSorted]

theorem mergeSortedUnique_cons_cons (a b : String) (as bs : List String) :
    mergeSortedUnique (a :: as) (b :: bs) =
      if a = b then a :: mergeSortedUnique as bs
      else if a < b then a :: mergeSortedUnique as (b :: bs)
      else b :: mergeSortedUnique (a :: as) bs := by
  simp [mergeSortedUnique]

theorem diffSorted_nil_right (as : List String) : diffSorted as [] = [] := by
  cases as <;> simp [diffSorted]

/-- On sorted deduplicated inputs, `diffSorted` computes exactly the ordered
set difference: scraped elements that are not members of the existing list. -/
theorem diffSorted_eq_filter : ∀ (ex sc : List String),
    ex.Sorted (· < ·) → sc.Sorted (· < ·) →
    diffSorted ex sc = sc.filter fun b => decide (b ∉ ex)
  | ex, [], _, _ => by simp [diffSorted_nil_right]
  | [], b :: bs, _, _ => by simp [diffSorted_nil_left]
  | a :: as, b :: bs, hex, hsc => by
    have hex' := (List.sorted_cons.mp hex)
    have hsc' := (List.sorted_cons.mp hsc)
    rw [diffSorted_cons_cons]
    by_cases hab : a = b
    · subst hab
      rw [if_pos rfl, diffSorted_eq_filter as bs hex'.2 hsc'.2]
      rw [List.filter_cons, if_neg (by simp)]
      refine List.filter_congr ?_
      intro x hx
      have hax : a < x := hsc'.1 x hx
      refine decide_eq_decide.mpr ?_
      simp only [List.mem_cons, not_or]
      constructor
      · intro h; exact ⟨ne_of_gt hax, h⟩
      · intro h; exact h.2
    · rw [if_neg hab]
      by_cases halt : a < b
      · rw [if_pos halt, diffSorted_eq_filter as (b :: bs) hex'.2 hsc]
        refine List.filter_congr ?_
        intro x hx
        have hax : a < x := by
          rcases List.mem_cons.mp hx with h | h
          · exact h ▸ halt
          · exact lt_trans halt (hsc'.1 x h)
        refine decide_eq_decide.mpr ?_
        simp only [List.mem_cons, not_or]
        constructor
        · intro h; exact ⟨ne_of_gt hax, h⟩
        · intro h; exact h.2
      · have hba : b < a := by
          rcases lt_trichotomy a b with h | h | h
          · exact absurd h halt
          · exact absurd h hab
          · exact h
        rw [if_neg halt, diffSorted_eq_filter (a :: as) bs hex hsc'.2]
        have hbmem : b ∉ a :: as := by
          simp only [List.mem_cons, not_or]
          exact ⟨ne_of_lt hba, fun hb => absurd (lt_trans hba (hex'.1 b hb)) (lt_irrefl b)⟩
        rw [List.filter_cons, if_pos (by simpa using hbmem)]
  termination_by ex sc => ex.length + sc.length

/-- Prepending the smaller head commutes with `mergeSortedUnique` when every
element of the second list is larger. -/
theorem mergeSortedUnique_cons_of_forall_lt (a : String) (as d : List String)
    (hd : ∀ c ∈ d, a < c) :
    mergeSortedUnique (a :: as) d = a :: mergeSortedUnique as d := by
  cases d with
  | nil => simp [mergeSortedUnique_nil_right]
  | cons c cs =>
    have hac : a < c := hd c (List.mem_cons_self c cs)
    rw [mergeSortedUnique_cons_cons, if_neg (ne_of_lt hac), if_pos hac]

/-- Merging the delta computed by `diffSorted` is the same as merging the whole
scraped list. -/
theorem mergeSortedUnique_diffSorted : ∀ (ex sc : List String),
    ex.Sorted (· < ·) → sc.Sorted (· < ·) →
    mergeSortedUnique ex (diffSorted ex sc) = mergeSortedUnique ex sc
  | ex, [], _, _ => by simp [diffSorted_nil_right]
  | [], b :: bs, _, _ => by simp [diffSorted_nil_left]
  | a :: as, b :: bs, hex, hsc => by
    have hex' := (List.sorted_cons.mp hex)
    have hsc' := (List.sorted_cons.mp hsc)
    rw [diffSorted_cons_cons]
    by_cases hab : a = b
    · subst hab
      rw [if_pos rfl]
      have hmem : ∀ c ∈ diffSorted as bs, a < c := by
        intro c hc
        rw [diffSorted_eq_filter as bs hex'.2 hsc'.2] at hc
        exact hsc'.1 c (List.mem_of_mem_filter hc)
      rw [mergeSortedUnique_cons_of_forall_lt a as _ hmem,
        mergeSortedUnique_diffSorted as bs hex'.2 hsc'.2,
        mergeSortedUnique_cons_cons, if_pos rfl]
    · by_cases halt : a < b
      · rw [if_neg hab, if_pos halt]
        have hmem : ∀ c ∈ diffSorted as (b :: bs), a < c := by
          intro c hc
          rw [diffSorted_eq_filter as (b :: bs) hex'.2 hsc] at hc
          rcases List.mem_cons.mp (List.mem_of_mem_filter hc) with h | h
          · exact h ▸ halt
          · exact lt_trans halt (hsc'.1 c h)
        rw [mergeSortedUnique_cons_of_forall_lt a as _ hmem,
          mergeSortedUnique_diffSorted as (b :: bs) hex'.2 hsc,
          mergeSortedUnique_cons_cons, if_neg hab, if_pos halt]
      · have hba : b < a := by
          rcases lt_trichotomy a b with h | h | h
          · exact absurd h halt
          · exact absurd h hab
          · exact h
        rw [if_neg hab, if_neg halt, mergeSortedUnique_cons_cons, if_neg hab,
          if_neg halt, mergeSortedUnique_cons_cons, if_neg hab, if_neg halt,
          mergeSortedUnique_diffSorted (a :: as) bs hex hsc'.2]
  termination_by ex sc => ex.length + sc.length

/-- C6: for every pair of sorted, deduplicated string lists `existing` and
`scraped`, `diffSorted existing scraped` returns exactly the elements of
`scraped` that are not in `existing`, in their original (sorted) order, and
`mergeSortedUnique existing (diffSorted existing scraped)` equals
`mergeSortedUnique existing scraped`. -/
theorem c6_dedup_diff_merge_laws (existing scraped : List String)
    (hex : existing.Sorted (· < ·)) (hsc : scraped.Sorted (· < ·)) :
    diffSorted existing scraped =
      (scraped.filter fun b => decide (b ∉ existing)) ∧
    mergeSortedUnique existing (diffSorted existing scraped) =
      mergeSortedUnique existing scraped :=
  ⟨diffSorted_eq_filter existing scraped hex hsc,
   mergeSortedUnique_diffSorted existing scraped hex hsc⟩

/-- Witness for C6 at a concrete sorted input. -/
theorem c6_dedup_diff_merge_laws_witness :
    diffSorted ["a", "c"] ["a", "b", "d"] =
      (["a", "b", "d"].filter fun b => decide (b ∉ ["a", "c"])) ∧
    mergeSortedUnique ["a", "c"] (diffSorted ["a", "c"] ["a", "b", "d"]) =
      mergeSortedUnique ["a", "c"] ["a", "b", "d"] :=
  c6_dedup_diff_merge_laws ["a", "c"] ["a", "b", "d"]
    (by simp [List.sorted_cons, String.lt_iff_toList_lt]; decide)
    (by simp [List.sorted_cons, String.lt_iff_toList_lt]; decide)

theorem chunksOf_length_le (n : Nat) (hn : 0 < n) :
    ∀ (l : List α), ∀ c ∈ chunksOf n l, c.length ≤ n
  | [], c, hc => by simp [chunksOf] at hc
  | x :: xs, c, hc => by
    rw [chunksOf] at hc
    rcases List.mem_cons.mp hc with h | h
    · subst h
      simp only [List.length_cons]
      have ht : (xs.take (n-1)).length ≤ n - 1 := by
        simp [List.length_take]
      omega
    · exact chunksOf_length_le n hn (xs.drop (n-1)) c h
  termination_by l => l.length

theorem chunksOf_join (n : Nat) : ∀ (l : List α), (chunksOf n l).flatten = l
  | [] => by simp [chunksOf]
  | x :: xs => by
    rw [chunksOf]
    simp only [List.flatten_cons, chunksOf_join n (xs.drop (n-1))]
    simp [List.take_append_drop]
  termination_by l => l.length

theorem insertOrIgnoreChunk_append (db : DeathsTable) :
    ∀ (c1 c2 : List InsertTuple),
    insertOrIgnoreChunk db (c1 ++ c2) =
      ((insertOrIgnoreChunk (insertOrIgnoreChunk db c1).1 c2).1,
       (insertOrIgnoreChunk db c1).2 ++ (insertOrIgnoreChunk (insertOrIgnoreChunk db c1).1 c2).2)
  | [], c2 => by simp [insertOrIgnoreChunk]
  | t :: ts, c2 => by
    by_cases h : t.wiki_path ∈ tableKeys db
    · simp only [List.cons_append, insertOrIgnoreChunk, if_pos h]
      exact insertOrIgnoreChunk_append db ts c2
    · simp only [List.cons_append, insertOrIgnoreChunk, if_neg h]
      rw [List.append_eq, insertOrIgnoreChunk_append (db ++ [t]) ts c2]

/-- The chunked batch is equivalent to processing the flat normalized tuple
list against the table in order. -/
theorem insertBatchReturningNew_eq_flat (db : DeathsTable) (rows : List DeathEntry) :
    insertBatchReturningNew db rows = insertOrIgnoreChunk db (rows.map normTuple) := by
  rw [insertBatchReturningNew]
  conv_rhs => rw [← chunksOf_join CHUNK (rows.map normTuple)]
  generalize chunksOf CHUNK (rows.map normTuple) = chunks
  suffices h : ∀ (chunks : List (List InsertTuple)) (db : DeathsTable) (acc : List InsertTuple),
      chunks.foldl (fun acc chunk =>
        let res := insertOrIgnoreChunk acc.1 chunk
        (res.1, acc.2 ++ res.2)) (db, acc) =
      ((insertOrIgnoreChunk db chunks.flatten).1,
       acc ++ (insertOrIgnoreChunk db chunks.flatten).2) by
    rw [h chunks db []]
    simp
  intro chunks
  induction chunks with
  | nil => intro db acc; simp [insertOrIgnoreChunk]
  | cons c cs ih =>
    intro db acc
    simp only [List.foldl_cons, List.flatten_cons]
    rw [ih, insertOrIgnoreChunk_append db c cs.flatten, List.append_assoc]

theorem insertOrIgnoreChunk_db_eq_append (db : DeathsTable) :
    ∀ (ts : List InsertTuple),
    (insertOrIgnoreChunk db ts).1 = db ++ (insertOrIgnoreChunk db ts).2
  | [] => by simp [insertOrIgnoreChunk]
  | t :: ts => by
    by_cases h : t.wiki_path ∈ tableKeys db
    · simp only [insertOrIgnoreChunk, if_pos h]
      exact insertOrIgnoreChunk_db_eq_append db ts
    · simp only [insertOrIgnoreChunk, if_neg h]
      rw [insertOrIgnoreChunk_db_eq_append (db ++ [t]) ts, List.append_assoc]
      simp

theorem insertOrIgnoreChunk_keys (db : DeathsTable) :
    ∀ (ts : List InsertTuple) (k : String),
    (k ∈ tableKeys (insertOrIgnoreChunk db ts).1) ↔
      (k ∈ tableKeys db ∨ k ∈ ts.map (·.wiki_path))
  | [], k => by simp [insertOrIgnoreChunk]
  | t :: ts, k => by
    by_cases h : t.wiki_path ∈ tableKeys db
    · simp only [insertOrIgnoreChunk, if_pos h]
      rw [insertOrIgnoreChunk_keys db ts k]
      simp only [List.map_cons, List.mem_cons]
      constructor
      · rintro (hk | hk)
        · exact Or.inl hk
        · exact Or.inr (Or.inr hk)
      · rintro (hk | hk | hk)
        · exact Or.inl hk
        · exact Or.inl (hk ▸ h)
        · exact Or.inr hk
    · simp only [insertOrIgnoreChunk, if_neg h]
      rw [insertOrIgnoreChunk_keys (db ++ [t]) ts k]
      simp only [tableKeys, List.map_append, List.map_cons, List.mem_append,
        List.mem_cons, List.map_nil, List.mem_singleton]
      tauto

theorem insertOrIgnoreChunk_all_present (db : DeathsTable) :
    ∀ (ts : List InsertTuple),
    (∀ t ∈ ts, t.wiki_path ∈ tableKeys db) →
    insertOrIgnoreChunk db ts = (db, [])
  | [], _ => by simp [insertOrIgnoreChunk]
  | t :: ts, h => by
    have ht := h t (List.mem_cons_self t ts)
    simp only [insertOrIgnoreChunk, if_pos ht]
    exact insertOrIgnoreChunk_all_present db ts fun x hx => h x (List.mem_cons_of_mem t hx)

theorem insertOrIgnoreChunk_ret_of_nodup (db : DeathsTable) :
    ∀ (ts : List InsertTuple), (ts.map (·.wiki_path)).Nodup →
    (insertOrIgnoreChunk db ts).2 =
      ts.filter fun t => decide (t.wiki_path ∉ tableKeys db)
  | [], _ => by simp [insertOrIgnoreChunk]
  | t :: ts, hnd => by
    have hnd0 : t.wiki_path ∉ ts.map (·.wiki_path) ∧ (ts.map (·.wiki_path)).Nodup := by
      rw [List.map_cons] at hnd
      exact List.nodup_cons.mp hnd
    by_cases h : t.wiki_path ∈ tableKeys db
    · simp only [insertOrIgnoreChunk, if_pos h]
      rw [insertOrIgnoreChunk_ret_of_nodup db ts hnd0.2, List.filter_cons,
        if_neg (by simpa using h)]
    · simp only [insertOrIgnoreChunk, if_neg h]
      rw [insertOrIgnoreChunk_ret_of_nodup (db ++ [t]) ts hnd0.2, List.filter_cons,
        if_pos (by simpa using h)]
      congr 1
      refine List.filter_congr ?_
      intro x hx
      refine decide_eq_decide.mpr ?_
      have hxt : x.wiki_path ≠ t.wiki_path := by
        intro heq
        exact hnd0.1 (heq ▸ List.mem_map_of_mem (·.wiki_path) hx)
      have hkeys : tableKeys (db ++ [t]) = tableKeys db ++ [t.wiki_path] := by
        simp [tableKeys]
      rw [hkeys]
      constructor
      · intro hmem hc
        exact hmem (List.mem_append_left _ hc)
      · intro hmem hc
        rcases List.mem_append.mp hc with hc | hc
        · exact hmem hc
        · exact hxt (List.mem_singleton.mp hc)

/-- C2: `insertBatchReturningNew` inserts exactly the candidate rows whose
(normalized) `wiki_path` is not already present, returns exactly that inserted
subset appended to the table, and a second call with the same batch leaves the
table unchanged and returns the empty list. -/
theorem c2_insert_batch_postcondition_and_idempotence
    (db : DeathsTable) (rows : List DeathEntry)
    (hnd : (rows.map fun r => (normTuple r).wiki_path).Nodup) :
    (insertBatchReturningNew db rows).2 =
      ((rows.map normTuple).filter fun t => decide (t.wiki_path ∉ tableKeys db)) ∧
    (insertBatchReturningNew db rows).1 = db ++ (insertBatchReturningNew db rows).2 ∧
    insertBatchReturningNew (insertBatchReturningNew db rows).1 rows =
      ((insertBatchReturningNew db rows).1, []) := by
  rw [insertBatchReturningNew_eq_flat, insertBatchReturningNew_eq_flat]
  have hnd' : ((rows.map normTuple).map (·.wiki_path)).Nodup := by
    simpa [List.map_map, Function.comp] using hnd
  refine ⟨insertOrIgnoreChunk_ret_of_nodup db (rows.map normTuple) hnd',
    insertOrIgnoreChunk_db_eq_append db (rows.map normTuple), ?_⟩
  refine insertOrIgnoreChunk_all_present _ (rows.map normTuple) ?_
  intro t ht
  rw [insertOrIgnoreChunk_keys db (rows.map normTuple) t.wiki_path]
  exact Or.inr (List.mem_map_of_mem (·.wiki_path) ht)

/-- Witness for C2 at a concrete table and batch. -/
theorem c2_insert_batch_witness :
    (insertBatchReturningNew
        [⟨"Old", "Old_Path", "active", none, none, none⟩]
        [⟨"A", "A_Path", "active", some 80, none, none⟩,
         ⟨"Old", "Old_Path", "active", none, none, none⟩]).2 =
      (([⟨"A", "A_Path", "active", some 80, none, none⟩,
         ⟨"Old", "Old_Path", "active", none, none, none⟩].map normTuple).filter
        fun t => decide (t.wiki_path ∉
          tableKeys [⟨"Old", "Old_Path", "active", none, none, none⟩])) ∧
    (insertBatchReturningNew
        [⟨"Old", "Old_Path", "active", none, none, none⟩]
        [⟨"A", "A_Path", "active", some 80, none, none⟩,
         ⟨"Old", "Old_Path", "active", none, none, none⟩]).1 =
      [⟨"Old", "Old_Path", "active", none, none, none⟩] ++
      (insertBatchReturningNew
        [⟨"Old", "Old_Path", "active", none, none, none⟩]
        [⟨"A", "A_Path", "active", some 80, none, none⟩,
         ⟨"Old", "Old_Path", "active", none, none, none⟩]).2 ∧
    insertBatchReturningNew
        (insertBatchReturningNew
          [⟨"Old", "Old_Path", "active", none, none, none⟩]
          [⟨"A", "A_Path", "active", some 80, none, none⟩,
           ⟨"Old", "Old_Path", "active", none, none, none⟩]).1
        [⟨"A", "A_Path", "active", some 80, none, none⟩,
         ⟨"Old", "Old_Path", "active", none, none, none⟩] =
      ((insertBatchReturningNew
          [⟨"Old", "Old_Path", "active", none, none, none⟩]
          [⟨"A", "A_Path", "active", some 80, none, none⟩,
           ⟨"Old", "Old_Path", "active", none, none, none⟩]).1, []) :=
  c2_insert_batch_postcondition_and_idempotence _ _ (by decide)

/-- C8: every statement prepared by the batched insert binds at most 96
positional parameters (16 rows × 6 bound fields), within the store's limit of
100; the chunk size 16 is `floor(100 / 6)`. -/
theorem c8_parameter_ceiling (rows : List DeathEntry) :
    (∀ binds ∈ insertStatements rows, binds.length ≤ 96 ∧ binds.length ≤ 100) ∧
    CHUNK = 100 / 6 ∧ 6 * CHUNK ≤ 100 := by
  refine ⟨?_, by decide, by decide⟩
  intro binds hb
  rcases List.mem_map.mp hb with ⟨chunk, hchunk, rfl⟩
  have hlen : chunk.length ≤ CHUNK :=
    chunksOf_length_le CHUNK (by decide) _ chunk hchunk
  have hbinds : ∀ (c : List InsertTuple),
      ((c.map tupleBinds).flatten).length = 6 * c.length := by
    intro c
    induction c with
    | nil => simp
    | cons t ts ih =>
      have h6 : (tupleBinds t).length = 6 := rfl
      simp only [List.map_cons, List.flatten_cons, List.length_append, ih, h6,
        List.length_cons]
      omega
  rw [hbinds chunk]
  constructor
  · calc 6 * chunk.length ≤ 6 * CHUNK := Nat.mul_le_mul_left 6 hlen
      _ = 96 := by decide
  · calc 6 * chunk.length ≤ 6 * CHUNK := Nat.mul_le_mul_left 6 hlen
      _ ≤ 100 := by decide

/-- Witness for C8 at a concrete batch. -/
theorem c8_parameter_ceiling_witness :
    (∀ binds ∈ insertStatements
        [⟨"A", "A_Path", "active", some 80, none, none⟩,
         ⟨"B", "B_Path", "edit", none, some "d", some "c"⟩],
      binds.length ≤ 96 ∧ binds.length ≤ 100) ∧
    CHUNK = 100 / 6 ∧ 6 * CHUNK ≤ 100 :=
  c8_parameter_ceiling _

theorem foldl_map_getElem? {β : Type} (g : β → DeathRow → DeathRow) :
    ∀ (l : List β) (db : Deaths) (k : Nat),
    (l.foldl (fun acc b => acc.map (g b)) db)[k]? =
      (db[k]?).map fun r => l.foldl (fun row b => g b row) r
  | [], db, k => by
    simp only [List.foldl_nil]
    cases db[k]? <;> simp
  | b :: l, db, k => by
    simp only [List.foldl_cons]
    rw [foldl_map_getElem? g l (db.map (g b)) k, List.getElem?_map]
    cases db[k]? <;> simp

theorem applyOp_getElem? (db : Deaths) (op : ReconcilerOp) (k : Nat) :
    (applyOp db op)[k]? = (db[k]?).map (applyOpRow op) := by
  cases op with
  | approve w c d =>
    simp only [applyOp, updateDeathLLM, List.getElem?_map]
    rfl
  | rejectPaths ws =>
    simp only [applyOp, setLLMNoFor, applyOpRow]
    exact foldl_map_getElem? _ _ db k
  | reject rs =>
    simp only [applyOp, markDeathsAsNo, applyOpRow]
    exact foldl_map_getElem? _ _ db k
  | markError ws =>
    simp only [applyOp, markDeathsAsError, applyOpRow]
    exact foldl_map_getElem? _ _ db k

theorem applyOps_getElem? (ops : List ReconcilerOp) :
    ∀ (db : Deaths) (k : Nat),
    (applyOps db ops)[k]? =
      (db[k]?).map fun r => ops.foldl (fun row op => applyOpRow op row) r := by
  induction ops with
  | nil =>
    intro db k
    simp only [applyOps, List.foldl_nil]
    cases db[k]? <;> simp
  | cons op ops ih =>
    intro db k
    simp only [applyOps, List.foldl_cons] at *
    rw [ih (applyOp db op) k, applyOp_getElem? db op k]
    cases db[k]? <;> simp

theorem updateDeathLLMRow_result (w : String) (c d : Option String) (r : DeathRow) :
    (updateDeathLLMRow w c d r).llm_result = "yes" ∨
    updateDeathLLMRow w c d r = r := by
  unfold updateDeathLLMRow
  split
  · exact Or.inl rfl
  · exact Or.inr rfl

theorem setLLMNoForRow_result (p : String) (r : DeathRow) :
    (setLLMNoForRow p r).llm_result = "no" ∨ setLLMNoForRow p r = r := by
  unfold setLLMNoForRow
  split
  · exact Or.inl rfl
  · exact Or.inr rfl

theorem markDeathsAsErrorRow_result (p : String) (r : DeathRow) :
    (markDeathsAsErrorRow p r).llm_result = "error" ∨ markDeathsAsErrorRow p r = r := by
  unfold markDeathsAsErrorRow
  split
  · exact Or.inl rfl
  · exact Or.inr rfl

theorem markDeathsAsNoRow_result (rej : Rejection) (r : DeathRow) :
    (markDeathsAsNoRow rej r).llm_result = "no" ∨ markDeathsAsNoRow rej r = r := by
  unfold markDeathsAsNoRow
  split
  · exact Or.inl rfl
  · exact Or.inr rfl

theorem setLLMNoForRow_of_not_pending (p : String) (r : DeathRow)
    (h : r.llm_result ≠ "pending") : setLLMNoForRow p r = r := by
  unfold setLLMNoForRow
  rw [if_neg]
  rintro ⟨-, hp⟩
  exact h hp

theorem markDeathsAsNoRow_of_not_pending (rej : Rejection) (r : DeathRow)
    (h : r.llm_result ≠ "pending") : markDeathsAsNoRow rej r = r := by
  unfold markDeathsAsNoRow
  rw [if_neg]
  rintro ⟨-, hp⟩
  exact h hp

theorem foldl_row_id {β : Type} (g : β → DeathRow → DeathRow)
    (hg : ∀ b row, row.llm_result ≠ "pending" → g b row = row) :
    ∀ (l : List β) (r : DeathRow), r.llm_result ≠ "pending" →
    l.foldl (fun row b => g b row) r = r
  | [], r, _ => rfl
  | b :: l, r, h => by
    simp only [List.foldl_cons, hg b r h]
    exact foldl_row_id g hg l r h

theorem foldl_row_pending {β : Type} (g : β → DeathRow → DeathRow)
    (hg : ∀ b row, (g b row).llm_result = "pending" → row.llm_result = "pending") :
    ∀ (l : List β) (r : DeathRow),
    (l.foldl (fun row b => g b row) r).llm_result = "pending" →
    r.llm_result = "pending"
  | [], _, h => h
  | b :: l, r, h => hg b r (foldl_row_pending g hg l (g b r) h)

theorem applyOpRow_reject_of_not_pending (op : ReconcilerOp)
    (hop : isRejectOp op = true) (r : DeathRow) (h : r.llm_result ≠ "pending") :
    applyOpRow op r = r := by
  cases op with
  | approve w c d => simp [isRejectOp] at hop
  | markError ws => simp [isRejectOp] at hop
  | rejectPaths ws =>
    exact foldl_row_id _ (fun p row hrow => setLLMNoForRow_of_not_pending p row hrow) _ r h
  | reject rs =>
    exact foldl_row_id _ (fun rej row hrow => markDeathsAsNoRow_of_not_pending rej row hrow) _ r h

theorem applyOpRow_pending (op : ReconcilerOp) (r : DeathRow)
    (h : (applyOpRow op r).llm_result = "pending") : r.llm_result = "pending" := by
  cases op with
  | approve w c d =>
    rcases updateDeathLLMRow_result w c d r with hy | he
    · rw [applyOpRow, hy] at h; exact absurd h (by decide)
    · rwa [applyOpRow, he] at h
  | rejectPaths ws =>
    refine foldl_row_pending _ ?_ _ r h
    intro p row hrow
    rcases setLLMNoForRow_result p row with hy | he
    · rw [hy] at hrow; exact absurd hrow (by decide)
    · rwa [he] at hrow
  | reject rs =>
    refine foldl_row_pending _ ?_ _ r h
    intro rej row hrow
    rcases markDeathsAsNoRow_result rej row with hy | he
    · rw [hy] at hrow; exact absurd hrow (by decide)
    · rwa [he] at hrow
  | markError ws =>
    refine foldl_row_pending _ ?_ _ r h
    intro p row hrow
    rcases markDeathsAsErrorRow_result p row with hy | he
    · rw [hy] at hrow; exact absurd hrow (by decide)
    · rwa [he] at hrow

theorem opsFoldl_row_id (ops : List ReconcilerOp) :
    ∀ (r : DeathRow), (∀ op ∈ ops, isRejectOp op = true) →
    r.llm_result ≠ "pending" →
    ops.foldl (fun row op => applyOpRow op row) r = r := by
  induction ops with
  | nil => intro r _ _; rfl
  | cons op ops ih =>
    intro r hall h
    simp only [List.foldl_cons]
    rw [applyOpRow_reject_of_not_pending op (hall op (List.mem_cons_self op ops)) r h]
    exact ih r (fun x hx => hall x (List.mem_cons_of_mem op hx)) h

theorem opsFoldl_row_pending (ops : List ReconcilerOp) :
    ∀ (r : DeathRow),
    (ops.foldl (fun row op => applyOpRow op row) r).llm_result = "pending" →
    r.llm_result = "pending" :=
  foldl_row_pending (fun op row => applyOpRow op row)
    (fun op row h => applyOpRow_pending op row h) ops

/-- C1 counterexample: a record whose verdict has already left `pending` for
the terminal state `rejected` (`llm_result = 'no'`) is moved to a different
terminal state (`approved`, `llm_result = 'yes'`) by a later reconciler call
through the approve path `updateDeathLLM`. -/
theorem c1_counterexample :
    ([⟨"W", "no", none, none, none⟩] : Deaths).map (·.llm_result) = ["no"] ∧
    (applyOps [⟨"W", "no", none, none, none⟩]
        [ReconcilerOp.approve "W" (some "heart failure") none]).map (·.llm_result) =
      ["yes"] := by
  constructor
  · rfl
  · rfl

/-- C1 (amended): once a record's verdict has left `pending`, the
rejected-marking paths (`setLLMNoFor` and the spec-modelled `markDeathsAsNo`)
never change the record again, and no sequence of reconciler calls ever
returns any record's verdict to `pending`; however the approve path
(`updateDeathLLM`) writes `llm_result = 'yes'` unguarded, and the
spec-modelled errored path writes `llm_result = 'error'` unguarded, so a
terminal verdict can still be overwritten by those calls. -/
theorem c1_forward_only_amended (db : Deaths) (ops : List ReconcilerOp)
    (k : Nat) (row : DeathRow) (hrow : db[k]? = some row)
    (hnp : row.llm_result ≠ "pending") :
    ((∀ op ∈ ops, isRejectOp op = true) → (applyOps db ops)[k]? = some row) ∧
    (∀ row', (applyOps db ops)[k]? = some row' → row'.llm_result ≠ "pending") := by
  constructor
  · intro hall
    rw [applyOps_getElem? ops db k, hrow, Option.map_some',
      opsFoldl_row_id ops row hall hnp]
  · intro row' h
    rw [applyOps_getElem? ops db k, hrow, Option.map_some'] at h
    intro hp
    apply hnp
    apply opsFoldl_row_pending ops row
    rw [Option.some_injective _ h]
    exact hp

theorem rlLookup_upsert_self : ∀ (db : RLStore) (key : String) (ws : Nat),
    rlLookup (rlUpsert db key ws) key = some (rlNext (rlLookup db key) ws)
  | [], key, ws => by simp [rlUpsert, rlLookup, rlNext]
  | e :: rest, key, ws => by
    obtain ⟨k0, s0, c0⟩ := e
    by_cases h : k0 = key
    · subst h
      by_cases hws : ws = s0
      · simp [rlUpsert, rlLookup, rlNext, hws]
      · simp [rlUpsert, rlLookup, rlNext, hws]
    · have hbeq : (k0 == key) = false := by simp [h]
      simp only [rlUpsert, if_neg h, rlLookup, List.find?_cons, hbeq]
      exact rlLookup_upsert_self rest key ws

theorem rlLookup_upsert_other : ∀ (db : RLStore) (key k : String) (ws : Nat),
    k ≠ key → rlLookup (rlUpsert db key ws) k = rlLookup db k
  | [], key, k, ws, hk => by
    have hbeq : (key == k) = false := beq_eq_false_iff_ne.mpr (Ne.symm hk)
    simp [rlUpsert, rlLookup, hbeq]
  | e :: rest, key, k, ws, hk => by
    obtain ⟨k0, s0, c0⟩ := e
    by_cases h : k0 = key
    · subst h
      have hbeq : (k0 == k) = false := beq_eq_false_iff_ne.mpr (Ne.symm hk)
      by_cases hws : ws = s0 <;>
        simp [rlUpsert, rlLookup, hws, hbeq]
    · simp only [rlUpsert, if_neg h, rlLookup, List.find?_cons]
      cases hbeq : ((k0, s0, c0).1 == k) with
      | true => simp
      | false =>
        simpa [rlLookup] using rlLookup_upsert_other rest key k ws hk

theorem incrementAndGet_store (db : RLStore) (key : String) (w now : Nat) :
    (incrementAndGet db key w now).1 = rlUpsert db key (now / w * w) := by
  cases hp : rlNext (rlLookup db key) (now / w * w) with
  | mk s c =>
    simp [incrementAndGet, rlLookup_upsert_self, hp]

theorem incrementAndGet_count (db : RLStore) (key : String) (w now : Nat) :
    (incrementAndGet db key w now).2 =
      ((rlNext (rlLookup db key) (now / w * w)).2,
       (rlNext (rlLookup db key) (now / w * w)).1) := by
  cases hp : rlNext (rlLookup db key) (now / w * w) with
  | mk s c =>
    simp [incrementAndGet, rlLookup_upsert_self, hp]

theorem rlFold_lookup_other (scope identifier : String) (now : Nat) :
    ∀ (ws : List RateWindow) (db : RLStore) (key : String),
    (∀ w ∈ ws, makeKey scope identifier w.windowSeconds ≠ key) →
    rlLookup (ws.foldl (fun d w =>
        (incrementAndGet d (makeKey scope identifier w.windowSeconds)
          w.windowSeconds now).1) db) key = rlLookup db key
  | [], db, key, _ => rfl
  | w :: ws, db, key, h => by
    simp only [List.foldl_cons]
    rw [rlFold_lookup_other scope identifier now ws _ key
      (fun x hx => h x (List.mem_cons_of_mem w hx))]
    rw [incrementAndGet_store]
    exact rlLookup_upsert_other db _ key _
      (fun heq => h w (List.mem_cons_self w ws) heq.symm)

theorem checkRateLimitsGo_spec (scope identifier : String) (now : Nat) :
    ∀ (ws : List RateWindow) (db : RLStore) (fe : Option RLExceeded),
    checkRateLimitsGo scope identifier now db ws fe =
      (ws.foldl (fun d w =>
        (incrementAndGet d (makeKey scope identifier w.windowSeconds)
          w.windowSeconds now).1) db,
       match fe with
       | some e => ⟨false, some e⟩
       | none =>
         match (rlTrace scope identifier now db ws).find?
             (fun st => decide (st.window.limit < st.count)) with
         | some st => ⟨false, some ⟨st.window.windowSeconds, st.window.limit,
             st.count, st.windowStart + st.window.windowSeconds - now⟩⟩
         | none => ⟨true, none⟩)
  | [], db, fe => by
    cases fe <;> simp [checkRateLimitsGo, rlTrace]
  | w :: ws, db, fe => by
    simp only [checkRateLimitsGo]
    rw [checkRateLimitsGo_spec scope identifier now ws _ _]
    simp only [List.foldl_cons]
    cases fe with
    | some e =>
      by_cases hex : w.limit <
          (incrementAndGet db (makeKey scope identifier w.windowSeconds)
            w.windowSeconds now).2.1
      · simp [hex]
      · simp [hex]
    | none =>
      by_cases hex : w.limit <
          (incrementAndGet db (makeKey scope identifier w.windowSeconds)
            w.windowSeconds now).2.1
      · simp only [if_pos hex, rlTrace, List.find?_cons,
          decide_eq_true_eq, hex, if_true]
        simp [hex]
      · simp only [if_neg hex, rlTrace, List.find?_cons]
        simp [hex]

/-- C7: on every call, each configured window's counter is upserted at key
`rl:{scope}:{identifier}:{windowSeconds}` with window start
`floor(now / windowSeconds) * windowSeconds` (reset to 1 on rollover, +1
otherwise), all windows are updated even when an earlier one already
exceeded, the result is allowed exactly when no window's post-increment
count exceeds its limit, and otherwise the first exceeded window is reported
with its `windowSeconds`, `limit`, `count` and seconds until reset. -/
theorem c7_rate_limiter_contract (db : RLStore) (scope identifier : String)
    (windows : List RateWindow) (now : Nat)
    (hnd : (windows.map fun w => makeKey scope identifier w.windowSeconds).Nodup) :
    (∀ w ∈ windows,
      rlLookup (checkRateLimits db scope identifier windows now).1
          (makeKey scope identifier w.windowSeconds) =
        some (rlNext (rlLookup db (makeKey scope identifier w.windowSeconds))
          (now / w.windowSeconds * w.windowSeconds))) ∧
    (checkRateLimits db scope identifier windows now).1 =
      windows.foldl (fun d w =>
        (incrementAndGet d (makeKey scope identifier w.windowSeconds)
          w.windowSeconds now).1) db ∧
    ((checkRateLimits db scope identifier windows now).2.allowed = true ↔
      ∀ st ∈ rlTrace scope identifier now db windows,
        st.count ≤ st.window.limit) ∧
    (checkRateLimits db scope identifier windows now).2.exceeded =
      ((rlTrace scope identifier now db windows).find? fun st =>
          decide (st.window.limit < st.count)).map fun st =>
        ⟨st.window.windowSeconds, st.window.limit, st.count,
         st.windowStart + st.window.windowSeconds - now⟩ := by
  have hspec := checkRateLimitsGo_spec scope identifier now windows db none
  rw [checkRateLimits, hspec]
  refine ⟨?_, rfl, ?_, ?_⟩
  · clear hspec
    induction windows generalizing db with
    | nil => intro w hw; exact absurd hw (by simp)
    | cons w0 ws ih =>
      rw [List.map_cons, List.nodup_cons] at hnd
      intro w hw
      rcases List.mem_cons.mp hw with rfl | hmem
      · simp only [List.foldl_cons]
        rw [rlFold_lookup_other scope identifier now ws _ _ ?_]
        · rw [incrementAndGet_store]
          exact rlLookup_upsert_self db _ _
        · intro x hx heq
          apply hnd.1
          rw [← heq]
          exact List.mem_map_of_mem _ hx
      · simp only [List.foldl_cons]
        rw [ih _ hnd.2 w hmem, incrementAndGet_store,
          rlLookup_upsert_other db _ _ _ ?_]
        intro heq
        apply hnd.1
        rw [← heq]
        exact List.mem_map_of_mem _ hmem
  · cases hfind : (rlTrace scope identifier now db windows).find?
        (fun st => decide (st.window.limit < st.count)) with
    | none =>
      simp only [hfind]
      constructor
      · intro _ st hst
        have := List.find?_eq_none.mp hfind st hst
        simpa using this
      · intro _; trivial
    | some st =>
      simp only [hfind]
      constructor
      · intro h; simp at h
      · intro hall
        have hlt : st.window.limit < st.count := by
          simpa using List.find?_some hfind
        have hmem := List.mem_of_find?_eq_some hfind
        exact absurd (hall st hmem) (by omega)
  · cases hfind : (rlTrace scope identifier now db windows).find?
        (fun st => decide (st.window.limit < st.count)) with
    | none => simp [hfind]
    | some st => simp [hfind]

/-- Witness for C7 at a concrete store, the configured `60s/3` and `3600s/20`
windows, and a concrete clock. -/
theorem c7_rate_limiter_contract_witness :
    (∀ w ∈ [RateWindow.mk 60 3, RateWindow.mk 3600 20],
      rlLookup (checkRateLimits [("rl:run:1.2.3.4:60", 120, 3)] "run" "1.2.3.4"
          [RateWindow.mk 60 3, RateWindow.mk 3600 20] 130).1
          (makeKey "run" "1.2.3.4" w.windowSeconds) =
        some (rlNext (rlLookup [("rl:run:1.2.3.4:60", 120, 3)]
          (makeKey "run" "1.2.3.4" w.windowSeconds))
          (130 / w.windowSeconds * w.windowSeconds))) ∧
    (checkRateLimits [("rl:run:1.2.3.4:60", 120, 3)] "run" "1.2.3.4"
        [RateWindow.mk 60 3, RateWindow.mk 3600 20] 130).1 =
      [RateWindow.mk 60 3, RateWindow.mk 3600 20].foldl (fun d w =>
        (incrementAndGet d (makeKey "run" "1.2.3.4" w.windowSeconds)
          w.windowSeconds 130).1) [("rl:run:1.2.3.4:60", 120, 3)] ∧
    ((checkRateLimits [("rl:run:1.2.3.4:60", 120, 3)] "run" "1.2.3.4"
        [RateWindow.mk 60 3, RateWindow.mk 3600 20] 130).2.allowed = true ↔
      ∀ st ∈ rlTrace "run" "1.2.3.4" 130 [("rl:run:1.2.3.4:60", 120, 3)]
          [RateWindow.mk 60 3, RateWindow.mk 3600 20],
        st.count ≤ st.window.limit) ∧
    (checkRateLimits [("rl:run:1.2.3.4:60", 120, 3)] "run" "1.2.3.4"
        [RateWindow.mk 60 3, RateWindow.mk 3600 20] 130).2.exceeded =
      ((rlTrace "run" "1.2.3.4" 130 [("rl:run:1.2.3.4:60", 120, 3)]
          [RateWindow.mk 60 3, RateWindow.mk 3600 20]).find? fun st =>
          decide (st.window.limit < st.count)).map fun st =>
        ⟨st.window.windowSeconds, st.window.limit, st.count,
         st.windowStart + st.window.windowSeconds - 130⟩ :=
  c7_rate_limiter_contract [("rl:run:1.2.3.4:60", 120, 3)] "run" "1.2.3.4"
    [RateWindow.mk 60 3, RateWindow.mk 3600 20] 130 (by decide)

/-- C10: on the manual-run entry point the per-IP rate-limit check runs and
updates all configured window counters before the bearer-token check: the
final counter store is the post-rate-check store in every outcome, an
over-limit IP receives 429 regardless of the Authorization header and secret,
and requests with a missing or wrong token receive 401 while still having
consumed rate-limit quota. -/
theorem c10_rate_limit_before_auth (db : RLStore) (ipHeader : Option String)
    (windows : List RateWindow) (authHeader manualRunSecret : String) (now : Nat) :
    (manualRun db ipHeader windows authHeader manualRunSecret now).1 =
      (checkRateLimits db "run"
        (if (ipHeader.getD "") = "" then "unknown" else ipHeader.getD "")
        windows now).1 ∧
    ((checkRateLimits db "run"
        (if (ipHeader.getD "") = "" then "unknown" else ipHeader.getD "")
        windows now).2.allowed = false →
      ∀ (auth' secret' : String), ∃ retry,
        (manualRun db ipHeader windows auth' secret' now).2 =
          RunResponse.tooMany retry) ∧
    ((checkRateLimits db "run"
        (if (ipHeader.getD "") = "" then "unknown" else ipHeader.getD "")
        windows now).2.allowed = true →
      ((if jsTrim authHeader = "" then "" else bearerToken (jsTrim authHeader)) = "" ∨
       (if jsTrim authHeader = "" then "" else bearerToken (jsTrim authHeader)) ≠
         manualRunSecret) →
      (manualRun db ipHeader windows authHeader manualRunSecret now).2 =
        RunResponse.unauthorized) := by
  refine ⟨?_, ?_, ?_⟩
  · simp only [manualRun]
    by_cases h : (checkRateLimits db "run"
        (if (ipHeader.getD "") = "" then "unknown" else ipHeader.getD "")
        windows now).2.allowed = false
    · rw [if_pos h]
    · rw [if_neg h]
      split <;> first | rfl | (split <;> rfl)
  · intro h auth' secret'
    simp only [manualRun]
    rw [if_pos h]
    exact ⟨_, rfl⟩
  · intro h htok
    simp only [manualRun]
    rw [if_neg (by simp [h]), if_pos htok]

/-- Witness for C10 at a concrete store, window list and request. -/
theorem c10_rate_limit_before_auth_witness :
    (manualRun [] (some "9.9.9.9") [RateWindow.mk 60 3] "Bearer tok" "tok" 90).1 =
      (checkRateLimits [] "run"
        (if ((some "9.9.9.9").getD "") = "" then "unknown"
         else (some "9.9.9.9").getD "")
        [RateWindow.mk 60 3] 90).1 ∧
    ((checkRateLimits [] "run"
        (if ((some "9.9.9.9").getD "") = "" then "unknown"
         else (some "9.9.9.9").getD "")
        [RateWindow.mk 60 3] 90).2.allowed = false →
      ∀ (auth' secret' : String), ∃ retry,
        (manualRun [] (some "9.9.9.9") [RateWindow.mk 60 3] auth' secret' 90).2 =
          RunResponse.tooMany retry) ∧
    ((checkRateLimits [] "run"
        (if ((some "9.9.9.9").getD "") = "" then "unknown"
         else (some "9.9.9.9").getD "")
        [RateWindow.mk 60 3] 90).2.allowed = true →
      ((if jsTrim "Bearer tok" = "" then ""
        else bearerToken (jsTrim "Bearer tok")) = "" ∨
       (if jsTrim "Bearer tok" = "" then ""
        else bearerToken (jsTrim "Bearer tok")) ≠ "tok") →
      (manualRun [] (some "9.9.9.9") [RateWindow.mk 60 3] "Bearer tok" "tok" 90).2 =
        RunResponse.unauthorized) :=
  c10_rate_limit_before_auth [] (some "9.9.9.9") [RateWindow.mk 60 3]
    "Bearer tok" "tok" 90

/-- C3: webhook verification returns 400 when any of the id/timestamp/
signature headers is missing (or empty, which the route treats the same);
returns 400 when `|now − timestamp|` exceeds the max-age window regardless of
the signature header's content; otherwise accepts iff at least one candidate
parsed from the space-separated, comma-prefixed signature header equals the
base64 HMAC-SHA256 over `"{id}.{timestamp}.{raw_body}"` keyed by the
unwrapped secret, and returns 403 when no candidate matches; the default
window is 5 minutes. -/
theorem c3_webhook_verification (hmacB64 : String → String → String)
    (secret : String) (id ts sig : Option String) (body : String)
    (now : Int) (maxAge : Nat) :
    (((id.getD "") = "" ∨ (ts.getD "") = "" ∨ (sig.getD "") = "") →
      verifyReplicateWebhook hmacB64 secret id ts sig body now maxAge =
        VerifyResult.err 400 "Missing required webhook headers") ∧
    (∀ n : Int,
      ¬((id.getD "") = "" ∨ (ts.getD "") = "" ∨ (sig.getD "") = "") →
      jsParseInt10 (ts.getD "") = some n → maxAge < (now - n).natAbs →
      verifyReplicateWebhook hmacB64 secret id ts sig body now maxAge =
        VerifyResult.err 400 "Webhook timestamp is too old") ∧
    (∀ n : Int,
      ¬((id.getD "") = "" ∨ (ts.getD "") = "" ∨ (sig.getD "") = "") →
      jsParseInt10 (ts.getD "") = some n → (now - n).natAbs ≤ maxAge →
      ((verifyReplicateWebhook hmacB64 secret id ts sig body now maxAge =
          VerifyResult.ok ↔
        ∃ cand ∈ parseWebhookSignatures sig,
          cand = hmacB64 (unwrapSecretB64 secret)
            ((id.getD "") ++ "." ++ (ts.getD "") ++ "." ++ body)) ∧
       (¬(∃ cand ∈ parseWebhookSignatures sig,
          cand = hmacB64 (unwrapSecretB64 secret)
            ((id.getD "") ++ "." ++ (ts.getD "") ++ "." ++ body)) →
        verifyReplicateWebhook hmacB64 secret id ts sig body now maxAge =
          VerifyResult.err 403 "Invalid webhook signature"))) ∧
    DEFAULT_MAX_AGE_SECONDS = 5 * 60 := by
  refine ⟨?_, ?_, ?_, rfl⟩
  · intro h
    rw [verifyReplicateWebhook, if_pos h]
  · intro n hpresent hparse hstale
    have hfresh : isTimestampFresh (ts.getD "") now maxAge = false := by
      simp only [isTimestampFresh, hparse]
      simp
      omega
    rw [verifyReplicateWebhook, if_neg hpresent, if_pos (by simp [hfresh])]
  · intro n hpresent hparse hle
    have hfresh : isTimestampFresh (ts.getD "") now maxAge = true := by
      simp only [isTimestampFresh, hparse]
      simpa using hle
    have hparts : verifyReplicateSignatureParts hmacB64 secret id ts sig body now
        maxAge = true ↔
        ∃ cand ∈ parseWebhookSignatures sig,
          cand = hmacB64 (unwrapSecretB64 secret)
            ((id.getD "") ++ "." ++ (ts.getD "") ++ "." ++ body) := by
      rw [verifyReplicateSignatureParts, if_neg hpresent,
        if_neg (by simp [hfresh])]
      simp only [computeReplicateSignature]
      cases hemp : (parseWebhookSignatures sig).isEmpty with
      | true =>
        have : parseWebhookSignatures sig = [] := List.isEmpty_iff.mp hemp
        simp [this]
      | false =>
        simp only [hemp, Bool.false_eq_true, if_false, List.any_eq_true,
          beq_iff_eq]
    constructor
    · rw [verifyReplicateWebhook, if_neg hpresent, if_neg (by simp [hfresh])]
      constructor
      · intro hok
        apply hparts.mp
        by_cases hv : verifyReplicateSignatureParts hmacB64 secret id ts sig body
            now maxAge = true
        · exact hv
        · rw [if_neg hv] at hok
          cases hok
      · intro hex
        rw [if_pos (hparts.mpr hex)]
    · intro hnex
      rw [verifyReplicateWebhook, if_neg hpresent, if_neg (by simp [hfresh]),
        if_neg (fun hv => hnex (hparts.mp hv))]

/-- Witness for C3: a fresh, correctly signed request with a `v1,`-prefixed
candidate is accepted. -/
theorem c3_webhook_verification_witness :
    verifyReplicateWebhook (fun k m => "sig(" ++ k ++ "|" ++ m ++ ")")
      "whsec_KEY" (some "id1") (some "1000")
      (some "v1,sig(KEY|id1.1000.BODY)") "BODY" 1100 300 = VerifyResult.ok := by
  have h := (c3_webhook_verification (fun k m => "sig(" ++ k ++ "|" ++ m ++ ")")
    "whsec_KEY" (some "id1") (some "1000") (some "v1,sig(KEY|id1.1000.BODY)")
    "BODY" 1100 300).2.2.1 1000 (by decide) (by decide) (by decide)
  exact h.1.mpr ⟨"sig(KEY|id1.1000.BODY)", by decide, by decide⟩

/-- C9: a bearer token exactly string-equal to `MANUAL_RUN_SECRET` bypasses
header-presence, timestamp and signature verification entirely on both
webhook routes (the request proceeds to body parsing), the override holds
exactly when the trimmed header's bearer token equals the configured
non-empty secret, and without the override a configured webhook secret means
the verification result decides the request. -/
theorem c9_manual_override_bypass (hmacB64 : String → String → String)
    (verify : Unit → VerifyResult)
    (authHeader manualRunSecret replicateSecret openaiSecret : String)
    (id ts sig : Option String) (body : String) (now : Int) :
    (manualOverride authHeader manualRunSecret = true →
      replicateCallbackGate hmacB64 authHeader manualRunSecret replicateSecret
        id ts sig body now = none ∧
      openaiWebhookGate verify authHeader manualRunSecret openaiSecret = none) ∧
    (manualOverride authHeader manualRunSecret = true ↔
      (jsTrim authHeader ≠ "" ∧ manualRunSecret ≠ "" ∧
       bearerToken (jsTrim authHeader) = manualRunSecret)) ∧
    (manualOverride authHeader manualRunSecret = false → replicateSecret ≠ "" →
      replicateCallbackGate hmacB64 authHeader manualRunSecret replicateSecret
          id ts sig body now =
        (match verifyReplicateWebhook hmacB64 replicateSecret id ts sig body now
            DEFAULT_MAX_AGE_SECONDS with
         | .ok => none
         | .err code e => some (code, e))) ∧
    (manualOverride authHeader manualRunSecret = false → openaiSecret ≠ "" →
      openaiWebhookGate verify authHeader manualRunSecret openaiSecret =
        (match verify () with
         | .ok => none
         | .err code e => some (code, e))) := by
  refine ⟨?_, ?_, ?_, ?_⟩
  · intro hov
    constructor
    · rw [replicateCallbackGate, if_neg]
      rintro ⟨-, hno⟩
      exact hno hov
    · rw [openaiWebhookGate, if_neg]
      rintro ⟨-, hno⟩
      exact hno hov
  · rw [manualOverride]
    by_cases h : jsTrim authHeader = "" ∨ manualRunSecret = ""
    · rw [if_pos h]
      simp only [Bool.false_eq_true, false_iff]
      rintro ⟨h1, h2, -⟩
      rcases h with h | h
      · exact h1 h
      · exact h2 h
    · rw [if_neg h]
      rw [not_or] at h
      simp [beq_iff_eq, h.1, h.2]
  · intro hov hsec
    rw [replicateCallbackGate, if_pos ⟨hsec, by simp [hov]⟩]
  · intro hov hsec
    rw [openaiWebhookGate, if_pos ⟨hsec, by simp [hov]⟩]

/-- Witness for C9: a matching bearer token proceeds on both routes even with
all signature headers missing and a failing verifier. -/
theorem c9_manual_override_bypass_witness :
    replicateCallbackGate (fun _ m => m) "Bearer s3cret" "s3cret" "whsec_k"
      none none none "body" 0 = none ∧
    openaiWebhookGate (fun _ => VerifyResult.err 403 "Invalid webhook signature")
      "Bearer s3cret" "s3cret" "sk" = none :=
  (c9_manual_override_bypass (fun _ m => m)
    (fun _ => VerifyResult.err 403 "Invalid webhook signature")
    "Bearer s3cret" "s3cret" "whsec_k" "sk" none none none "body" 0).1
    (by decide)

theorem DeathRow_update_wiki (r : DeathRow) (x : String) :
    ({ r with llm_result := x } : DeathRow).wiki_path = r.wiki_path := rfl

theorem DeathRow_update_update (r : DeathRow) (x : String) :
    ({ ({ r with llm_result := x } : DeathRow) with llm_result := x } : DeathRow) =
      { r with llm_result := x } := rfl

theorem markErrorRow_fold (ws : List String) : ∀ (r : DeathRow),
    ws.foldl (fun row p => markDeathsAsErrorRow p row) r =
      if r.wiki_path ∈ ws then { r with llm_result := "error" } else r := by
  induction ws with
  | nil => intro r; simp
  | cons w ws ih =>
    intro r
    simp only [List.foldl_cons]
    by_cases h : r.wiki_path = w
    · have hstep : markDeathsAsErrorRow w r = { r with llm_result := "error" } := by
        rw [markDeathsAsErrorRow, if_pos h]
      rw [hstep, ih]
      simp only [DeathRow_update_wiki, DeathRow_update_update]
      rw [if_pos (show r.wiki_path ∈ w :: ws by simp [h])]
      split <;> rfl
    · have hstep : markDeathsAsErrorRow w r = r := by
        rw [markDeathsAsErrorRow, if_neg h]
      rw [hstep, ih]
      have hiff : (r.wiki_path ∈ w :: ws) ↔ (r.wiki_path ∈ ws) := by simp [h]
      by_cases hm : r.wiki_path ∈ ws
      · rw [if_pos hm, if_pos (hiff.mpr hm)]
      · rw [if_neg hm, if_neg (fun hc => hm (hiff.mp hc))]

theorem markDeathsAsError_getElem? (db : Deaths) (ws : List String) (k : Nat) :
    (markDeathsAsError db ws)[k]? =
      (db[k]?).map fun r =>
        if r.wiki_path ∈ ws then { r with llm_result := "error" } else r := by
  rw [markDeathsAsError, foldl_map_getElem?]
  cases db[k]? with
  | none => rfl
  | some r => rw [Option.map_some', Option.map_some', markErrorRow_fold]

/-- C4: when the candidate set is non-empty and the provider output is empty
or fails structured-JSON extraction, the verdict-application step marks every
candidate `errored` and returns `errored = |candidates|` with zero
approved/rejected; no candidate row is left `pending`. -/
theorem c4_reconciler_fail_safe (B : JsBuiltins) (db : Deaths)
    (outputText : String) (candidatePaths : List String)
    (hne : (candidatePaths.map jsTrim).filter (· ≠ "") ≠ [])
    (hfail : jsTrim outputText = "" ∨
      extractAndParseJSON B.jsonParse (jsTrim outputText) = none) :
    (applyLlmOutput B db outputText candidatePaths).db =
      markDeathsAsError db ((candidatePaths.map jsTrim).filter (· ≠ "")) ∧
    (applyLlmOutput B db outputText candidatePaths).errored =
      ((candidatePaths.map jsTrim).filter (· ≠ "")).length ∧
    (applyLlmOutput B db outputText candidatePaths).notified = 0 ∧
    (applyLlmOutput B db outputText candidatePaths).rejected = 0 ∧
    (∀ (k : Nat) (row : DeathRow),
      (applyLlmOutput B db outputText candidatePaths).db[k]? = some row →
      row.wiki_path ∈ (candidatePaths.map jsTrim).filter (· ≠ "") →
      row.llm_result = "error") := by
  have hlen : ((candidatePaths.map jsTrim).filter (· ≠ "")).length ≠ 0 := by
    intro h
    exact hne (List.length_eq_zero.mp h)
  have hres : applyLlmOutput B db outputText candidatePaths =
      { db := markDeathsAsError db ((candidatePaths.map jsTrim).filter (· ≠ ""))
        notified := 0, rejected := 0
        errored := ((candidatePaths.map jsTrim).filter (· ≠ "")).length } := by
    rcases hfail with hjoined | hparse
    · simp only [applyLlmOutput, hjoined]
      rw [if_pos trivial, if_pos hlen]
    · by_cases hjoined : jsTrim outputText = ""
      · simp only [applyLlmOutput, hjoined]
        rw [if_pos trivial, if_pos hlen]
      · simp only [applyLlmOutput]
        rw [if_neg hjoined, hparse, if_pos hlen]
  refine ⟨by rw [hres], by rw [hres], by rw [hres], by rw [hres], ?_⟩
  intro k row hrow hmem
  rw [hres] at hrow
  simp only at hrow
  rw [markDeathsAsError_getElem?] at hrow
  cases hdb : db[k]? with
  | none => rw [hdb] at hrow; cases hrow
  | some r0 =>
    rw [hdb, Option.map_some'] at hrow
    have heq := Option.some_injective _ hrow
    by_cases hm : r0.wiki_path ∈ (candidatePaths.map jsTrim).filter (· ≠ "")
    · rw [if_pos hm] at heq
      rw [← heq]
    · rw [if_neg hm] at heq
      rw [← heq] at hmem
      exact absurd hmem hm

/-- Witness for C4: unparsable output with two candidates, both marked
`errored`. -/
theorem c4_reconciler_fail_safe_witness :
    (applyLlmOutput (testBuiltins fun _ => none)
        [⟨"A", "pending", none, none, none⟩] "garbage" ["A", ""]).db =
      markDeathsAsError [⟨"A", "pending", none, none, none⟩]
        ((["A", ""].map jsTrim).filter (· ≠ "")) ∧
    (applyLlmOutput (testBuiltins fun _ => none)
        [⟨"A", "pending", none, none, none⟩] "garbage" ["A", ""]).errored =
      ((["A", ""].map jsTrim).filter (· ≠ "")).length ∧
    (applyLlmOutput (testBuiltins fun _ => none)
        [⟨"A", "pending", none, none, none⟩] "garbage" ["A", ""]).notified = 0 ∧
    (applyLlmOutput (testBuiltins fun _ => none)
        [⟨"A", "pending", none, none, none⟩] "garbage" ["A", ""]).rejected = 0 ∧
    (∀ (k : Nat) (row : DeathRow),
      (applyLlmOutput (testBuiltins fun _ => none)
        [⟨"A", "pending", none, none, none⟩] "garbage" ["A", ""]).db[k]? =
          some row →
      row.wiki_path ∈ (["A", ""].map jsTrim).filter (· ≠ "") →
      row.llm_result = "error") :=
  c4_reconciler_fail_safe (testBuiltins fun _ => none)
    [⟨"A", "pending", none, none, none⟩] "garbage" ["A", ""]
    (by decide) (Or.inr rfl)

/-- C5 counterexample: with candidates `A` and `B` and the parsed verdict
`\x7b"selected":[],"rejected":[]\x7d`, `B` is a candidate that is not present
in the selected list, which the claim says is inferred rejected and marked —
yet the reconciler marks only explicitly rejected items, so both records stay
`pending`, the table is unchanged, and the call reports zero rejections. -/
theorem c5_counterexample :
    (applyLlmOutput
      (testBuiltins fun s =>
        if s = "\x7b\"selected\":[],\"rejected\":[]\x7d" then
          some (JsonVal.obj [("selected", JsonVal.arr []),
                             ("rejected", JsonVal.arr [])])
        else none)
      [⟨"A", "pending", none, none, none⟩, ⟨"B", "pending", none, none, none⟩]
      "\x7b\"selected\":[],\"rejected\":[]\x7d" ["A", "B"]).db =
      [⟨"A", "pending", none, none, none⟩,
       ⟨"B", "pending", none, none, none⟩] ∧
    (applyLlmOutput
      (testBuiltins fun s =>
        if s = "\x7b\"selected\":[],\"rejected\":[]\x7d" then
          some (JsonVal.obj [("selected", JsonVal.arr []),
                             ("rejected", JsonVal.arr [])])
        else none)
      [⟨"A", "pending", none, none, none⟩, ⟨"B", "pending", none, none, none⟩]
      "\x7b\"selected\":[],\"rejected\":[]\x7d" ["A", "B"]).rejected = 0 := by
  constructor
  · rfl
  · rfl

theorem sanitizeReason_le (v : Option JsonVal) (s : String)
    (h : sanitizeReason v = some s) : s.length ≤ MAX_REASON_CHARS := by
  rw [sanitizeReason] at h
  by_cases h1 : toStr v = ""
  · rw [if_pos h1] at h
    cases h
  · rw [if_neg h1] at h
    by_cases h2 : jsTrim (replaceWsRuns ' ' (toStr v)) = ""
    · rw [if_pos h2] at h
      cases h
    · rw [if_neg h2] at h
      have hs := Option.some_injective _ h
      rw [← hs]
      show (String.mk _).data.length ≤ MAX_REASON_CHARS
      simp [List.length_take]

theorem normalizeRejected_reason_le (B : JsBuiltins) (raw : Option JsonVal)
    (m : Option WikiMap) :
    ∀ rej ∈ normalizeRejected B raw m, ∀ s, rej.reason = some s →
      s.length ≤ MAX_REASON_CHARS := by
  have haux : ∀ (items : List JsonVal) (acc : List Rejection),
      (∀ rej ∈ acc, ∀ s, rej.reason = some s → s.length ≤ MAX_REASON_CHARS) →
      ∀ rej ∈ items.foldl (fun out item =>
        match item with
        | JsonVal.str s =>
          let wiki_path := resolveWikiPath B (some (JsonVal.str s)) m
          if wiki_path ≠ "" then out ++ [⟨wiki_path, none⟩] else out
        | JsonVal.obj f =>
          let wiki_path := readWikiPath B f m
          if wiki_path = "" then out
          else out ++ [⟨wiki_path, sanitizeReason (jsGet f "reason")⟩]
        | _ => out) acc,
      ∀ s, rej.reason = some s → s.length ≤ MAX_REASON_CHARS := by
    intro items
    induction items with
    | nil => intro acc hacc; exact hacc
    | cons item items ih =>
      intro acc hacc
      simp only [List.foldl_cons]
      apply ih
      intro rej hrej s hs
      cases item with
      | str str0 =>
        by_cases hw : resolveWikiPath B (some (JsonVal.str str0)) m ≠ ""
        · simp only [if_pos hw] at hrej
          rcases List.mem_append.mp hrej with hmem | hmem
          · exact hacc rej hmem s hs
          · rcases List.mem_singleton.mp hmem with rfl
            cases hs
        · simp only [if_neg hw] at hrej
          exact hacc rej hrej s hs
      | obj f0 =>
        by_cases hw : readWikiPath B f0 m = ""
        · simp only [if_pos hw] at hrej
          exact hacc rej hrej s hs
        · simp only [if_neg hw] at hrej
          rcases List.mem_append.mp hrej with hmem | hmem
          · exact hacc rej hmem s hs
          · rcases List.mem_singleton.mp hmem with rfl
            exact sanitizeReason_le _ s hs
      | num n => exact hacc rej hrej s hs
      | bool b => exact hacc rej hrej s hs
      | null => exact hacc rej hrej s hs
      | arr l => exact hacc rej hrej s hs
  intro rej hrej s hs
  match raw with
  | none => cases hrej
  | some (JsonVal.arr items) =>
    exact haux items [] (by intro rej h; cases h) rej hrej s hs
  | some (JsonVal.obj f) =>
    rw [normalizeRejected] at hrej
    by_cases hw : readWikiPath B f m ≠ ""
    · rw [if_pos hw] at hrej
      rcases List.mem_singleton.mp hrej with rfl
      exact sanitizeReason_le _ s hs
    · rw [if_neg hw] at hrej
      cases hrej
  | some (JsonVal.str s0) => cases hrej
  | some (JsonVal.num n0) => cases hrej
  | some (JsonVal.bool b0) => cases hrej
  | some JsonVal.null => cases hrej

theorem updateDeathLLMRow_of_ne (w : String) (c d : Option String) (r : DeathRow)
    (h : r.wiki_path ≠ w) : updateDeathLLMRow w c d r = r := by
  rw [updateDeathLLMRow, if_neg h]

theorem selRowFold_id (B : JsBuiltins) (m : Option WikiMap) :
    ∀ (items : List (List (String × JsonVal))) (r : DeathRow),
    (∀ it ∈ items, readWikiPath B it m ≠ r.wiki_path) →
    items.foldl (fun row it => selRowStep B m it row) r = r
  | [], r, _ => rfl
  | it :: items, r, h => by
    have hstep : selRowStep B m it r = r := by
      rw [selRowStep]
      by_cases hn : selItemName it = ""
      · rw [if_pos hn]
      · rw [if_neg hn]
        by_cases hw : readWikiPath B it m ≠ ""
        · simp only [if_pos hw]
          exact updateDeathLLMRow_of_ne _ _ _ r
            (fun heq => h it (List.mem_cons_self it items) heq.symm)
        · simp only [if_neg hw]
    simp only [List.foldl_cons, hstep]
    exact selRowFold_id B m items r fun x hx => h x (List.mem_cons_of_mem it hx)

theorem map_eq_self_of_id {α : Type} (f : α → α) (l : List α) (h : ∀ x, f x = x) :
    l.map f = l := by
  induction l with
  | nil => rfl
  | cons x xs ih => simp [h x, ih]

theorem map_congr_fn {α β : Type} (f g : α → β) (l : List α) (h : ∀ x, f x = g x) :
    l.map f = l.map g := by
  induction l with
  | nil => rfl
  | cons x xs ih => simp [h x, ih]

theorem selLoop_getElem? (B : JsBuiltins) (m : Option WikiMap) :
    ∀ (items : List (List (String × JsonVal))) (db : Deaths) (n k : Nat),
    ((items.foldl (selLoopStep B m) (db, n)).1)[k]? =
      (db[k]?).map fun r => items.foldl (fun row it => selRowStep B m it row) r
  | [], db, n, k => by
    simp only [List.foldl_nil]
    cases db[k]? <;> simp
  | it :: items, db, n, k => by
    simp only [List.foldl_cons]
    rw [show selLoopStep B m (db, n) it =
        (db.map (selRowStep B m it),
         if selItemName it = "" then n else n + 1) from ?_]
    · rw [selLoop_getElem? B m items (db.map (selRowStep B m it)) _ k,
        List.getElem?_map]
      cases db[k]? <;> simp
    · simp only [selLoopStep]
      by_cases hn : selItemName it = ""
      · simp only [if_pos hn]
        have hfun : ∀ r, selRowStep B m it r = r := fun r => by
          simp only [selRowStep, if_pos hn]
        rw [map_eq_self_of_id _ db hfun]
      · simp only [if_neg hn]
        by_cases hw : readWikiPath B it m ≠ ""
        · simp only [if_pos hw, updateDeathLLM]
          have hfun : ∀ r,
              updateDeathLLMRow (readWikiPath B it m) (some (selItemCause it))
                (some (selItemDesc it)) r = selRowStep B m it r := fun r => by
            simp only [selRowStep, if_neg hn, if_pos hw]
          rw [map_congr_fn _ _ db hfun]
        · simp only [if_neg hw]
          have hfun : ∀ r, selRowStep B m it r = r := fun r => by
            simp only [selRowStep, if_neg hn, if_neg hw]
          rw [map_eq_self_of_id _ db hfun]

theorem markDeathsAsNoRow_of_ne (rej : Rejection) (r : DeathRow)
    (h : r.wiki_path ≠ rej.wiki_path) : markDeathsAsNoRow rej r = r := by
  rw [markDeathsAsNoRow, if_neg]
  rintro ⟨h1, -⟩
  exact h h1

theorem markNoRow_fold_of_ne : ∀ (rejs : List Rejection) (r : DeathRow),
    (∀ rej ∈ rejs, rej.wiki_path ≠ r.wiki_path) →
    rejs.foldl (fun row rej => markDeathsAsNoRow rej row) r = r
  | [], _, _ => rfl
  | rej0 :: rejs, r, h => by
    simp only [List.foldl_cons,
      markDeathsAsNoRow_of_ne rej0 r
        (fun heq => h rej0 (List.mem_cons_self rej0 rejs) heq.symm)]
    exact markNoRow_fold_of_ne rejs r fun x hx => h x (List.mem_cons_of_mem rej0 hx)

theorem markNoRow_fold_of_pending (rejs : List Rejection) :
    ∀ (r : DeathRow), r.llm_result = "pending" →
    rejs.foldl (fun row rej => markDeathsAsNoRow rej row) r =
      (match rejs.find? (fun rej => rej.wiki_path == r.wiki_path) with
       | some rej => { r with llm_result := "no", rejection_reason := rej.reason }
       | none => r)
  | r, hp => by
    induction rejs with
    | nil => rfl
    | cons rej0 rejs ih =>
      simp only [List.foldl_cons, List.find?_cons]
      by_cases h : rej0.wiki_path = r.wiki_path
      · have hstep : markDeathsAsNoRow rej0 r =
            { r with llm_result := "no", rejection_reason := rej0.reason } := by
          rw [markDeathsAsNoRow, if_pos ⟨h.symm, hp⟩]
        rw [hstep, foldl_row_id _
          (fun rej row hrow => markDeathsAsNoRow_of_not_pending rej row hrow) _ _
          (by simp)]
        rw [show (rej0.wiki_path == r.wiki_path) = true from beq_iff_eq.mpr h]
      · have hstep : markDeathsAsNoRow rej0 r = r := by
          rw [markDeathsAsNoRow, if_neg]
          rintro ⟨h1, -⟩
          exact h h1.symm
        rw [hstep,
          show (rej0.wiki_path == r.wiki_path) = false from
            beq_eq_false_iff_ne.mpr h]
        exact ih

/-- C5 (amended): for a parsed `selected`/`rejected` verdict object over
candidate set `C`, only the items explicitly listed as rejected — resolved
against the candidate map, and not also selected — are marked: the first
matching rejection writes `llm_result = 'no'` with its reason (always
truncated to at most `MAX_REASON_CHARS = 200` characters), and only if the
record is still `pending`; a record that no selected item resolves to and
that no rejected item names is left completely untouched, so candidates the
provider omits — forced ids in particular, which the reconciler never
receives and never singles out — remain `pending` instead of being inferred
rejected. -/
theorem c5_rejection_semantics_amended (B : JsBuiltins) (db : Deaths)
    (outputText : String) (candidatePaths : List String)
    (f : List (String × JsonVal))
    (hjoined : jsTrim outputText ≠ "")
    (hparse : extractAndParseJSON B.jsonParse (jsTrim outputText) =
      some (JsonVal.obj f))
    (hkeys : jsHas f "selected" = true ∨ jsHas f "rejected" = true)
    (M : Option WikiMap)
    (hM : M =
      if ((candidatePaths.map jsTrim).filter (· ≠ "")).length ≠ 0 then
        some (buildWikiPathMap B ((candidatePaths.map jsTrim).filter (· ≠ "")))
      else none)
    (S : List (List (String × JsonVal)))
    (hS : S = normalizeToArray (jsGet f "selected"))
    (R : List Rejection)
    (hR : R = normalizeRejected B (jsGet f "rejected") M) :
    (applyLlmOutput B db outputText candidatePaths).rejected = R.length ∧
    (∀ rej ∈ R, ∀ s, rej.reason = some s → s.length ≤ MAX_REASON_CHARS) ∧
    (∀ (k : Nat) (row : DeathRow), db[k]? = some row →
      (∀ it ∈ S, readWikiPath B it M ≠ row.wiki_path) →
      ((∀ rej ∈ R, rej.wiki_path ≠ row.wiki_path) →
        (applyLlmOutput B db outputText candidatePaths).db[k]? = some row) ∧
      (row.llm_result ≠ "pending" →
        (applyLlmOutput B db outputText candidatePaths).db[k]? = some row) ∧
      (row.llm_result = "pending" →
        ∀ rej : Rejection,
          (R.filter fun item =>
              !(((S.map fun it => readWikiPath B it M).filter
                (· ≠ "")).contains item.wiki_path)).find?
            (fun rj => rj.wiki_path == row.wiki_path) = some rej →
          (applyLlmOutput B db outputText candidatePaths).db[k]? =
            some { row with llm_result := "no",
                            rejection_reason := rej.reason })) := by
  subst hM
  subst hR
  subst hS
  have hres : applyLlmOutput B db outputText candidatePaths =
      { db :=
          if (normalizeRejected B (jsGet f "rejected")
              (if ((candidatePaths.map jsTrim).filter (· ≠ "")).length ≠ 0 then
                some (buildWikiPathMap B
                  ((candidatePaths.map jsTrim).filter (· ≠ "")))
              else none)).length ≠ 0 then
            markDeathsAsNo
              ((normalizeToArray (jsGet f "selected")).foldl
                (selLoopStep B
                  (if ((candidatePaths.map jsTrim).filter (· ≠ "")).length ≠ 0 then
                    some (buildWikiPathMap B
                      ((candidatePaths.map jsTrim).filter (· ≠ "")))
                  else none))
                (db, 0)).1
              ((normalizeRejected B (jsGet f "rejected")
                  (if ((candidatePaths.map jsTrim).filter (· ≠ "")).length ≠ 0 then
                    some (buildWikiPathMap B
                      ((candidatePaths.map jsTrim).filter (· ≠ "")))
                  else none)).filter fun item =>
                !((((normalizeToArray (jsGet f "selected")).map fun it =>
                      readWikiPath B it
                        (if ((candidatePaths.map jsTrim).filter
                            (· ≠ "")).length ≠ 0 then
                          some (buildWikiPathMap B
                            ((candidatePaths.map jsTrim).filter (· ≠ "")))
                        else none)).filter (· ≠ "")).contains item.wiki_path))
          else
            ((normalizeToArray (jsGet f "selected")).foldl
              (selLoopStep B
                (if ((candidatePaths.map jsTrim).filter (· ≠ "")).length ≠ 0 then
                  some (buildWikiPathMap B
                    ((candidatePaths.map jsTrim).filter (· ≠ "")))
                else none))
              (db, 0)).1
        notified :=
          ((normalizeToArray (jsGet f "selected")).foldl
            (selLoopStep B
              (if ((candidatePaths.map jsTrim).filter (· ≠ "")).length ≠ 0 then
                some (buildWikiPathMap B
                  ((candidatePaths.map jsTrim).filter (· ≠ "")))
              else none))
            (db, 0)).2
        rejected :=
          (normalizeRejected B (jsGet f "rejected")
            (if ((candidatePaths.map jsTrim).filter (· ≠ "")).length ≠ 0 then
              some (buildWikiPathMap B
                ((candidatePaths.map jsTrim).filter (· ≠ "")))
            else none)).length
        errored := 0 } := by
    simp only [applyLlmOutput]
    rw [if_neg hjoined, hparse]
    simp only [if_pos hkeys]
  refine ⟨by rw [hres], normalizeRejected_reason_le B _ _, ?_⟩
  intro k row hrow hnotsel
  have hdbe := congrArg ApplyResult.db hres
  have hdb1 : ((normalizeToArray (jsGet f "selected")).foldl
      (selLoopStep B
        (if ((candidatePaths.map jsTrim).filter (· ≠ "")).length ≠ 0 then
          some (buildWikiPathMap B ((candidatePaths.map jsTrim).filter (· ≠ "")))
        else none))
      (db, 0)).1[k]? = some row := by
    rw [selLoop_getElem?, hrow, Option.map_some',
      selRowFold_id B _ _ row hnotsel]
  refine ⟨?_, ?_, ?_⟩
  · intro hnorej
    rw [hdbe]
    by_cases hlen : (normalizeRejected B (jsGet f "rejected")
        (if ((candidatePaths.map jsTrim).filter (· ≠ "")).length ≠ 0 then
          some (buildWikiPathMap B ((candidatePaths.map jsTrim).filter (· ≠ "")))
        else none)).length ≠ 0
    · rw [if_pos hlen, markDeathsAsNo, foldl_map_getElem?, hdb1,
        Option.map_some', markNoRow_fold_of_ne _ row ?_]
      intro rej hrejf
      exact hnorej rej (List.mem_of_mem_filter hrejf)
    · rw [if_neg hlen]
      exact hdb1
  · intro hnp
    rw [hdbe]
    by_cases hlen : (normalizeRejected B (jsGet f "rejected")
        (if ((candidatePaths.map jsTrim).filter (· ≠ "")).length ≠ 0 then
          some (buildWikiPathMap B ((candidatePaths.map jsTrim).filter (· ≠ "")))
        else none)).length ≠ 0
    · rw [if_pos hlen, markDeathsAsNo, foldl_map_getElem?, hdb1,
        Option.map_some',
        foldl_row_id _ (fun rej r h => markDeathsAsNoRow_of_not_pending rej r h)
          _ row hnp]
    · rw [if_neg hlen]
      exact hdb1
  · intro hp rej hfind
    have hmemf := List.mem_of_find?_eq_some hfind
    have hlen : (normalizeRejected B (jsGet f "rejected")
        (if ((candidatePaths.map jsTrim).filter (· ≠ "")).length ≠ 0 then
          some (buildWikiPathMap B ((candidatePaths.map jsTrim).filter (· ≠ "")))
        else none)).length ≠ 0 := by
      have hmem := List.mem_of_mem_filter hmemf
      intro h0
      rw [List.length_eq_zero.mp h0] at hmem
      cases hmem
    rw [hdbe, if_pos hlen, markDeathsAsNo, foldl_map_getElem?, hdb1,
      Option.map_some', markNoRow_fold_of_pending _ row hp, hfind]

/-- Witness for the amended C5: with candidates `A`, `B`, `C`, `A` selected
and `B` explicitly rejected with reason `obscure`, the omitted candidate `C`
stays `pending` untouched and `B` is marked `no` with its reason. -/
theorem c5_rejection_semantics_amended_witness :
    (applyLlmOutput
      (testBuiltins fun s =>
        if s = "\x7b\"selected\":[\x7b\"name\":\"Alice\",\"wiki_path\":\"A\"\x7d],\"rejected\":[\x7b\"wiki_path\":\"B\",\"reason\":\"obscure\"\x7d]\x7d" then
          some (JsonVal.obj
            [("selected", JsonVal.arr [JsonVal.obj
                [("name", JsonVal.str "Alice"), ("wiki_path", JsonVal.str "A")]]),
             ("rejected", JsonVal.arr [JsonVal.obj
                [("wiki_path", JsonVal.str "B"),
                 ("reason", JsonVal.str "obscure")]])])
        else none)
      [⟨"A", "pending", none, none, none⟩, ⟨"B", "pending", none, none, none⟩,
       ⟨"C", "pending", none, none, none⟩]
      "\x7b\"selected\":[\x7b\"name\":\"Alice\",\"wiki_path\":\"A\"\x7d],\"rejected\":[\x7b\"wiki_path\":\"B\",\"reason\":\"obscure\"\x7d]\x7d"
      ["A", "B", "C"]).db[2]? =
      some ⟨"C", "pending", none, none, none⟩ ∧
    (applyLlmOutput
      (testBuiltins fun s =>
        if s = "\x7b\"selected\":[\x7b\"name\":\"Alice\",\"wiki_path\":\"A\"\x7d],\"rejected\":[\x7b\"wiki_path\":\"B\",\"reason\":\"obscure\"\x7d]\x7d" then
          some (JsonVal.obj
            [("selected", JsonVal.arr [JsonVal.obj
                [("name", JsonVal.str "Alice"), ("wiki_path", JsonVal.str "A")]]),
             ("rejected", JsonVal.arr [JsonVal.obj
                [("wiki_path", JsonVal.str "B"),
                 ("reason", JsonVal.str "obscure")]])])
        else none)
      [⟨"A", "pending", none, none, none⟩, ⟨"B", "pending", none, none, none⟩,
       ⟨"C", "pending", none, none, none⟩]
      "\x7b\"selected\":[\x7b\"name\":\"Alice\",\"wiki_path\":\"A\"\x7d],\"rejected\":[\x7b\"wiki_path\":\"B\",\"reason\":\"obscure\"\x7d]\x7d"
      ["A", "B", "C"]).db[1]? =
      some ⟨"B", "no", none, none, some "obscure"⟩ := by
  have h := c5_rejection_semantics_amended
    (testBuiltins fun s =>
      if s = "\x7b\"selected\":[\x7b\"name\":\"Alice\",\"wiki_path\":\"A\"\x7d],\"rejected\":[\x7b\"wiki_path\":\"B\",\"reason\":\"obscure\"\x7d]\x7d" then
        some (JsonVal.obj
          [("selected", JsonVal.arr [JsonVal.obj
              [("name", JsonVal.str "Alice"), ("wiki_path", JsonVal.str "A")]]),
           ("rejected", JsonVal.arr [JsonVal.obj
              [("wiki_path", JsonVal.str "B"),
               ("reason", JsonVal.str "obscure")]])])
      else none)
    [⟨"A", "pending", none, none, none⟩, ⟨"B", "pending", none, none, none⟩,
     ⟨"C", "pending", none, none, none⟩]
    "\x7b\"selected\":[\x7b\"name\":\"Alice\",\"wiki_path\":\"A\"\x7d],\"rejected\":[\x7b\"wiki_path\":\"B\",\"reason\":\"obscure\"\x7d]\x7d"
    ["A", "B", "C"]
    [("selected", JsonVal.arr [JsonVal.obj
        [("name", JsonVal.str "Alice"), ("wiki_path", JsonVal.str "A")]]),
     ("rejected", JsonVal.arr [JsonVal.obj
        [("wiki_path", JsonVal.str "B"), ("reason", JsonVal.str "obscure")]])]
    (by decide) rfl (Or.inl rfl) _ rfl _ rfl _ rfl
  constructor
  · exact ((h.2.2) 2 ⟨"C", "pending", none, none, none⟩ rfl (by decide)).1
      (by decide)
  · exact ((h.2.2) 1 ⟨"B", "pending", none, none, none⟩ rfl (by decide)).2.2 rfl
      ⟨"B", some "obscure"⟩ (by decide)

/-- Witness for the amended C1 at a concrete table and call sequence. -/
theorem c1_forward_only_amended_witness :
    ((∀ op ∈ [ReconcilerOp.reject [⟨"W", some "not notable"⟩],
              ReconcilerOp.rejectPaths ["W"]], isRejectOp op = true) →
      (applyOps [⟨"W", "yes", none, none, none⟩]
          [ReconcilerOp.reject [⟨"W", some "not notable"⟩],
           ReconcilerOp.rejectPaths ["W"]])[0]? =
        some ⟨"W", "yes", none, none, none⟩) ∧
    (∀ row', (applyOps [⟨"W", "yes", none, none, none⟩]
          [ReconcilerOp.reject [⟨"W", some "not notable"⟩],
           ReconcilerOp.rejectPaths ["W"]])[0]? = some row' →
      row'.llm_result ≠ "pending") :=
  c1_forward_only_amended [⟨"W", "yes", none, none, none⟩]
    [ReconcilerOp.reject [⟨"W", some "not notable"⟩],
     ReconcilerOp.rejectPaths ["W"]] 0
    ⟨"W", "yes", none, none, none⟩ rfl (by decide)

end CDB
